import Mathlib

/-!
A verification development for `astroid/raw_building.py`: the reflective
builder that creates astroid node trees from live Python objects.

The embedding models live objects as identified records (`ObjData`,
addressed by `ObjId`), the node tree as a growable heap of `NodeData`
records (addressed by index), and the builder state (`BState`) as the heap
together with the memo table `done` (the builder's `self._done`), the
global module cache (`MANAGER.astroid_cache`) and a ghost log `builtFor`
recording, purely for specification purposes, which live object each
module/class node was constructed for.

The recursive walk `object_build` is embedded as a fuel-indexed machine
`build_step` over a task type, structurally recursive on the fuel, so that
concrete runs reduce inside the kernel; a fuel-sufficiency theorem shows
the fuel is an artifact of the embedding, not of the program.
-/

set_option maxRecDepth 10000

namespace RawBuilding

/-- Identity of a live Python object (module or class) that the builder
may memoize: the key of `self._done`. -/
abbrev ObjId := Nat

/-- The recognized constant types: the keys of the external
`node_classes.CONST_CLS` table (`_CONSTANTS` in the source). -/
inductive PyType
  | noneType
  | notImplType
  | boolType
  | intType
  | floatType
  | complexType
  | strType
  | bytesType
  | listType
  | tupleType
  | dictType
  | setType
  deriving DecidableEq, Repr

/-- The runtime class name of each recognized constant type
(`cls.__name__` in the bootstrap loop). -/
def type_name : PyType → String
  | .noneType => "NoneType"
  | .notImplType => "NotImplementedType"
  | .boolType => "bool"
  | .intType => "int"
  | .floatType => "float"
  | .complexType => "complex"
  | .strType => "str"
  | .bytesType => "bytes"
  | .listType => "list"
  | .tupleType => "tuple"
  | .dictType => "dict"
  | .setType => "set"

/-- A live value of a recognized constant type: its runtime type together
with an opaque payload standing for the value itself (the builder never
inspects the value beyond its type). -/
structure ConstVal where
  ctype : PyType
  payload : Nat
  deriving DecidableEq, Repr

/-- Outcome of reading a member's `__module__` attribute: it may be
absent (`getattr` default `None`), raise (the bare `except` in
`imported_member`), or hold a module name. -/
inductive ModAttr
  | missing
  | raises
  | val (s : String)
  deriving DecidableEq, Repr

/-- The part of a live code object the builder reads
(`six.get_function_code(member)`). -/
structure CodeData where
  co_filename : String
  co_flags : Nat
  deriving DecidableEq, Repr

/-- A live Python function as the builder sees it: `__name__`, `__doc__`,
its optional code object (`None` models the `AttributeError` some
implementations raise), and the result of `inspect.getargspec`. -/
structure FuncData where
  fname : Option String
  fdoc : Option String := none
  code : Option CodeData := none
  argNames : List String := []
  varargName : Option String := none
  varkwName : Option String := none
  defaults : List ConstVal := []
  deriving DecidableEq, Repr

/-- A live built-in routine (`inspect.isbuiltin`): name, docstring,
`__module__` behaviour, and, when its `__self__` is a module, that
module's `__name__` (for `_io_discrepancy`). -/
structure BuiltinData where
  bname : Option String
  bdoc : Option String := none
  bmodule : ModAttr := .missing
  bselfModuleName : Option String := none
  deriving DecidableEq, Repr

/-- A live attribute value, classified the way the `if/elif` chain of
`object_build` classifies it: each constructor is the first branch of the
chain (`ismethod` / `isfunction` / `isbuiltin` / `isclass` /
`ismethoddescriptor` / `isdatadescriptor` / `isinstance(_, _CONSTANTS)` /
`isroutine` / fallback) that matches the value. -/
inductive Member
  | meth (f : FuncData)
  | func (f : FuncData)
  | builtin (b : BuiltinData)
  | cls (cid : ObjId)
  | methdescr (dname ddoc : Option String)
  | datadescr (dname ddoc : Option String)
  | constv (v : ConstVal)
  | routine (f : FuncData)
  | other
  deriving DecidableEq, Repr

/-- Outcome of fetching one attribute from a live object: a value, an
`AttributeError` (the only exception the walk's `except` clause names), or
any other exception (a property or `__getattr__` may raise anything). -/
inductive AttrRes
  | ok (m : Member)
  | attrError
  | otherError
  deriving DecidableEq, Repr

/-- The attribute surface of one live object (module or class): its
`dir()` listing, its `getattr` behaviour, and the class metadata the
builder reads when the object is a class member (`__name__`, `__doc__`,
`__module__`, base names, whether it subclasses `Exception`, whether it is
new-style, and the instance `__dict__` produced by `member()` — `none`
when the zero-argument instantiation raises). -/
structure ObjData where
  dirNames : List String
  attrs : List (String × AttrRes)
  cname : Option String := none
  cdoc : Option String := none
  cmodule : ModAttr := .missing
  basenames : List String := []
  isExc : Bool := false
  newstyle : Bool := false
  instDict : Option (List (String × Member)) := none
  deriving DecidableEq, Repr

instance : Inhabited ObjData := ⟨{ dirNames := [], attrs := [] }⟩

/-- The fixed environment of one builder invocation: the live object
graph, the builder's `self._module` (its identity, `__name__`,
`getattr(module, '__file__', None)`, `__doc__` behaviour and `__path__`
presence), and the attribute surfaces `sys.modules` exposes for
the import probe. -/
structure Env where
  objs : List (ObjId × ObjData)
  selfModuleId : ObjId
  selfModuleName : String
  selfModuleFile : Option String := none
  selfModuleDoc : Option (Option String) := some none
  selfModuleHasPath : Bool := false
  sysModules : List (String × List String) := []
  deriving DecidableEq, Repr

/-- The node variants of the symbolic tree the builder produces. -/
inductive NodeKind
  | module
  | classdef
  | functiondef
  | arguments
  | importfrom
  | constnode
  | namenode
  | emptynode
  deriving DecidableEq, Repr

/-- One symbolic node.  A single flat record holds the variant-specific
fields; fields a variant does not use keep their defaults.  `aargs = none`
is an Arguments node whose argument list is unknown (`args.args = None` in
the source), distinct from `some []`, the empty list. -/
structure NodeData where
  kind : NodeKind
  nname : Option String := none
  parent : Option Nat := none
  locals : List (String × List Nat) := []
  doc : Option String := none
  package : Bool := false
  file : Option String := none
  pure_python : Bool := true
  bases : List Nat := []
  newstyle : Bool := false
  instance_attrs : List (String × List Nat) := []
  argsChild : Option Nat := none
  aargs : Option (List Nat) := none
  adefaults : List Nat := []
  avararg : Option String := none
  akwarg : Option String := none
  modname : String := ""
  importNames : List (String × Option String) := []
  cval : Option ConstVal := none
  eobj : Option Member := none
  lineno : Option Nat := none
  deriving DecidableEq, Repr

instance : Inhabited NodeData := ⟨{ kind := .emptynode }⟩

/-- The mutable state of the builder: `heap` is the node store (a node's
identity is its index), `done` the memo table `self._done`, `cache` the
global module cache, and `builtFor` a ghost log of which live object each
freshly constructed module/class node was built for — it records
specification information only and never influences the build. -/
structure BState where
  heap : List NodeData := []
  done : List (ObjId × Nat) := []
  cache : List (String × Nat) := []
  builtFor : List (ObjId × Nat) := []
  deriving DecidableEq, Repr

/-- Association-list lookup; the front-most binding wins, matching a
Python dict updated by assignment where every insertion in this model is
a fresh cons. -/
def alookup {α β : Type} [DecidableEq α] (k : α) : List (α × β) → Option β
  | [] => none
  | (a, b) :: rest => if a = k then some b else alookup k rest

/-- The live object stored under an identity, or an inert default for an
identity outside the environment. -/
def objDataOf (env : Env) (obj : ObjId) : ObjData :=
  (alookup obj env.objs).getD default

/-- The `dir(obj)` listing the walk enumerates. -/
def dir_names (env : Env) (obj : ObjId) : List String :=
  (objDataOf env obj).dirNames

/-- Fetching `getattr(obj, name)` on a live object: a name `dir` lists but
the object cannot actually deliver raises (`AttributeError` unless the
environment says otherwise). -/
def getattr_live (env : Env) (obj : ObjId) (name : String) : AttrRes :=
  match alookup name (objDataOf env obj).attrs with
  | some r => r
  | none => .attrError

/-- Python truthiness of an optional string, as in `a or b`: `None` and
the empty string fall through to the alternative. -/
def py_or_opt (a b : Option String) : Option String :=
  match a with
  | some s => if s = "" then b else some s
  | none => b

/-- Python `a or b` landing on a plain string. -/
def py_or (a : Option String) (b : String) : String :=
  match a with
  | some s => if s = "" then b else s
  | none => b

/-- Node at an index of the heap (default-valued out of range; every use
in the development stays in range). -/
def nodeAt (st : BState) (i : Nat) : NodeData :=
  (st.heap[i]?).getD default

/-- Replace the node at an index by a function of its old value: the
embedding of an in-place node mutation. -/
def setNode (st : BState) (i : Nat) (f : NodeData → NodeData) : BState :=
  { st with heap := st.heap.set i (f (nodeAt st i)) }

/-- Allocate a fresh node; its identity is the previous heap length. -/
def addNode (st : BState) (d : NodeData) : BState × Nat :=
  ({ st with heap := st.heap ++ [d] }, st.heap.length)

/-- Append a node to the ordered binding list of a name in a local-name
table (`self.locals.setdefault(name, []).append(node)`). -/
def localsAdd (ls : List (String × List Nat)) (k : String) (v : Nat) :
    List (String × List Nat) :=
  match ls with
  | [] => [(k, [v])]
  | (a, b) :: rest =>
    if a = k then (a, b ++ [v]) :: rest else (a, b) :: localsAdd rest k v

/-- The ordered bindings of a name (`node.locals.get(name, ())`). -/
def localsGet (ls : List (String × List Nat)) (k : String) : List Nat :=
  (alookup k ls).getD []

/-- Replace (not extend) the binding list of a name, as the assignment
`klass.instance_attrs[name] = [valnode]` does. -/
def localsSet (ls : List (String × List Nat)) (k : String) (v : List Nat) :
    List (String × List Nat) :=
  match ls with
  | [] => [(k, v)]
  | (a, b) :: rest =>
    if a = k then (a, v) :: rest else (a, b) :: localsSet rest k v

/-- Modelled from the spec: `set_local` of the external node taxonomy —
register a binding of `name` to `child` in the scope's local-name table,
the sole mutation point for local-name tables. -/
def set_local (st : BState) (scope : Nat) (name : String) (child : Nat) : BState :=
  setNode st scope (fun d => { d with locals := localsAdd d.locals name child })

/-- Modelled from the spec: `add_local_node` of the external node
taxonomy — register `child` in the parent's local-name table under `name`,
falling back to the child's own name when no name is given. -/
def add_local_node (st : BState) (parent child : Nat) (name : Option String) : BState :=
  set_local st parent ((py_or_opt name (nodeAt st child).nname).getD "") child

/-- Set the node's name (needed by `add_local_node`) and register it in
the parent's locals (`_attach_local_node`). -/
def attach_local_node (st : BState) (parent child : Nat) (name : String) : BState :=
  add_local_node (setNode st child (fun d => { d with nname := some name }))
    parent child none

/-- Does an `EmptyNode` carry a live value (its `object` is not the
`_marker` sentinel)?  The source patches this onto `EmptyNode` as
`has_underlying_object`. -/
def has_underlying_object (d : NodeData) : Bool :=
  d.eobj.isSome

/-- Create a dummy `EmptyNode`, optionally carrying the live value it
stands for, and register it in the locals of the given node
(`attach_dummy_node`; `obj = none` is the `_marker` default). -/
def attach_dummy_node (st : BState) (node : Nat) (name : String)
    (obj : Option Member) : BState :=
  let p := addNode st { kind := .emptynode, eobj := obj }
  attach_local_node p.1 node p.2 name

/-- Modelled from the spec: the names each node variant reserves
internally (`node.special_attributes` of the external taxonomy), the
guard against shadowing special attributes in `attach_const_node`. -/
def special_attributes : NodeKind → List String
  | .module => ["__name__", "__doc__", "__file__", "__path__", "__dict__"]
  | .classdef => ["__name__", "__doc__", "__dict__", "__module__", "__bases__",
                  "__mro__", "__subclasses__"]
  | _ => []

/-- Modelled from the spec: `nodes.const_factory` of the external
taxonomy — produce a constant node wrapping a recognized constant-typed
value. -/
def const_factory (v : ConstVal) : NodeData :=
  { kind := .constnode, cval := some v }

/-- Create a constant node and register it in the locals of the given
node, unless the name collides with a reserved special attribute
(`attach_const_node`). -/
def attach_const_node (st : BState) (node : Nat) (name : String) (v : ConstVal) :
    BState :=
  if name ∈ special_attributes (nodeAt st node).kind then st
  else
    let p := addNode st (const_factory v)
    attach_local_node p.1 node p.2 name

/-- Create an `ImportFrom` node for one re-exported member and register
it under the member's name (`attach_import_node`). -/
def attach_import_node (st : BState) (node : Nat) (modname membername : String) :
    BState :=
  let p := addNode st
    { kind := .importfrom, modname := modname, importNames := [(membername, none)] }
  attach_local_node p.1 node p.2 membername

/-- Create and initialize a Module node (`build_module`). -/
def build_module (st : BState) (name : String) (doc : Option String) :
    BState × Nat :=
  addNode st
    { kind := .module, nname := some name, doc := doc, pure_python := false,
      package := false, parent := none }

/-- One step of the base-name loop of `build_class`: allocate an
unresolved Name reference node for one base name, parent it under the
class and append it to the class's base list. -/
def addBaseName (cid : Nat) (acc : BState) (b : String) : BState :=
  let q := addNode acc { kind := .namenode, nname := some b, parent := some cid }
  setNode q.1 cid (fun d => { d with bases := d.bases ++ [q.2] })

/-- Create and initialize a ClassDef node: one unresolved Name reference
node per base name, each parented under the class (`build_class`). -/
def build_class (st : BState) (name : String) (basenames : List String)
    (doc : Option String) : BState × Nat :=
  let p := addNode st { kind := .classdef, nname := some name, doc := doc }
  (basenames.foldl (addBaseName p.2) p.1, p.2)

/-- One step of the argument loop of `build_function`: allocate a Name
node for a parameter, parent it under the Arguments node and append it to
the Arguments node's list. -/
def addArgName (aid : Nat) (acc : BState) (a : String) : BState :=
  let q := addNode acc { kind := .namenode, nname := some a, parent := some aid }
  setNode q.1 aid (fun d => { d with aargs := some ((d.aargs.getD []) ++ [q.2]) })

/-- One step of the default loop of `build_function`: allocate a constant
node for a default value, parented under the Arguments node. -/
def addDefault (aid : Nat) (acc : BState) (v : ConstVal) : BState :=
  let q := addNode acc { (const_factory v) with parent := some aid }
  setNode q.1 aid (fun d => { d with adefaults := d.adefaults ++ [q.2] })

/-- Add the function's own parameters to its local scope
(`register_arguments`; the Python-2 nested-tuple parameter case cannot
occur for the Name nodes `build_function` creates, so only the Name case
is represented). -/
def register_arguments (st : BState) (fid : Nat) : BState :=
  match (nodeAt st fid).argsChild with
  | none => st
  | some aid =>
    let st1 :=
      match (nodeAt st aid).avararg with
      | some v => set_local st fid v aid
      | none => st
    let st2 :=
      match (nodeAt st1 aid).akwarg with
      | some v => set_local st1 fid v aid
      | none => st1
    ((nodeAt st2 aid).aargs.getD []).foldl
      (fun acc arg => set_local acc fid ((nodeAt acc arg).nname.getD "") arg) st2

set_option linter.unusedVariables false in
/-- Create and initialize a FunctionDef node with its Arguments child
(`build_function`).  The `flag` parameter mirrors the source signature;
like the source body, it is never read. -/
def build_function (st : BState) (name : String) (args : List String)
    (defaults : List ConstVal) (flag : Nat) (doc : Option String) : BState × Nat :=
  let p := addNode st { kind := .functiondef, nname := some name, doc := doc }
  let q := addNode p.1 { kind := .arguments, aargs := some [] }
  let st1 := setNode q.1 p.2 (fun d => { d with argsChild := some q.2 })
  let st2 := args.foldl (addArgName q.2) st1
  let st3 := defaults.foldl (addDefault q.2) st2
  let st4 := setNode st3 q.2
    (fun d => { d with akwarg := none, avararg := none, parent := some p.2 })
  let st5 := if args = [] then st4 else register_arguments st4 p.2
  (st5, p.2)

/-- Create and initialize an ImportFrom statement (`build_from_import`). -/
def build_from_import (st : BState) (fromname : String) (names : List String) :
    BState × Nat :=
  addNode st
    { kind := .importfrom, modname := fromname,
      importNames := names.map (fun n => (n, none)) }

/-- Create astroid for a living function object (`object_build_function`):
the catch-all positional and keyword parameter names, when present, are
appended to the ordinary argument list. -/
def object_build_function (st : BState) (node : Nat) (f : FuncData)
    (localname : String) : BState :=
  let args := f.argNames
      ++ (match f.varargName with | some v => [v] | none => [])
      ++ (match f.varkwName with | some v => [v] | none => [])
  let p := build_function st (py_or f.fname localname) args f.defaults
      ((f.code.map (fun c => c.co_flags)).getD 0) f.fdoc
  add_local_node p.1 node p.2 (some localname)

/-- Create astroid for a living method descriptor object
(`object_build_methoddescriptor`): the Arguments node's list is set to
`none` to record that no argument information exists — deliberately not
the empty list. -/
def object_build_methoddescriptor (st : BState) (node : Nat)
    (mname mdoc : Option String) (localname : String) : BState :=
  let p := build_function st (py_or mname localname) [] [] 0 mdoc
  let st1 :=
    match (nodeAt p.1 p.2).argsChild with
    | some aid => setNode p.1 aid (fun d => { d with aargs := none })
    | none => p.1
  add_local_node st1 node p.2 (some localname)

/-- One step of the instance-attribute harvest of
`_base_class_object_build`: an `EmptyNode` placeholder for one harvested
instance-dict key, parented under the class, line-numbered 1, stored by
assignment into the class's instance-attribute table. -/
def harvestAttr (kid : Nat) (acc : BState) (p : String × Member) : BState :=
  let q := addNode acc
    { kind := .emptynode, eobj := some p.2, parent := some kid, lineno := some 1 }
  setNode q.1 kid
    (fun d => { d with instance_attrs := localsSet d.instance_attrs p.1 [q.2] })

/-- Create astroid for a living class object with a given set of base
names (`_base_class_object_build`).  The zero-argument instantiation trick
runs only for `Exception` subclasses and inside a bare `except`: a raising
constructor (`instDict = none`) and a non-exception class both fall
through with no harvested attributes and cannot make the build fail. -/
def base_class_object_build (st : BState) (node : Nat) (basenames : List String)
    (name localname : Option String) (mname mdoc : Option String)
    (newstyle : Bool) (isExc : Bool)
    (instDict : Option (List (String × Member))) : BState × Nat :=
  let p := build_class st ((py_or_opt name (py_or_opt mname localname)).getD "")
      basenames mdoc
  let st1 := setNode p.1 p.2 (fun d => { d with newstyle := newstyle })
  let st2 := add_local_node st1 node p.2 localname
  let st3 :=
    if isExc then
      match instDict with
      | some entries => entries.foldl (harvestAttr p.2) st2
      | none => st2
    else st2
  (st3, p.2)

/-- Create astroid for a living class object (`object_build_class`). -/
def object_build_class (env : Env) (st : BState) (node : Nat) (cid : ObjId)
    (localname : String) : BState × Nat :=
  let cd := objDataOf env cid
  base_class_object_build st node cd.basenames none (some localname)
    cd.cname cd.cdoc cd.newstyle cd.isExc cd.instDict

/-- Create astroid for a living data descriptor object
(`object_build_datadescriptor`): a data descriptor is not a type, and
`issubclass` raising on it lands in the same bare `except` as a
non-exception class, so no instance attributes are harvested. -/
def object_build_datadescriptor (st : BState) (node : Nat)
    (dname ddoc : Option String) (name : String) : BState × Nat :=
  base_class_object_build st node [] (some name) none dname ddoc false false none

/-- Verify this is not an imported function and build accordingly
(`_build_from_function`): no code object means the method-descriptor
path; a code object whose file differs from the live module's file means
a dummy node; otherwise a real function build. -/
def build_from_function (env : Env) (st : BState) (node : Nat) (name : String)
    (member : Member) (f : FuncData) : BState :=
  let filename := f.code.map (fun c => c.co_filename)
  match filename with
  | none => object_build_methoddescriptor st node f.fname f.fdoc name
  | some fn =>
    if (some fn : Option String) ≠ env.selfModuleFile then
      attach_dummy_node st node name (some member)
    else object_build_function st node f name

/-- The `_io` module names itself `io` (`_io_discrepancy`): the member's
`__self__` is a module named `_io` while its `__module__` says `io`. -/
def io_discrepancy (b : BuiltinData) : Bool :=
  b.bselfModuleName = some "_io" && b.bmodule = .val "io"

/-- Whether the platform is Jython (`os.name == 'java'`); the canonical
reflection model this development follows is CPython, where it is false. -/
def jython : Bool := false

/-- The names `vars(six.moves.builtins)` exposes (`_BUILTINS`); it is
consulted only under the `jython` flag, which is false on the canonical
platform, so its contents are never read. -/
def builtins_vars : List String := []

/-- The name of the builtins module (`six.moves.builtins.__name__`). -/
def builtins_module_name : String := "builtins"

/-- The fixed alias normalization of declaring-module names
(`{'gtk': 'gtk_gtk', '_io': 'io'}.get(modname, modname)`). -/
def real_name_of (modname : String) : String :=
  if modname = "gtk" then "gtk_gtk"
  else if modname = "_io" then "io"
  else modname

/-- The import probe and tail of `imported_member`, entered once a
declaring-module name is in hand: normalize it; if it differs from the
module being built, probe `sys.modules[modname]` for the name (KeyError
or AttributeError degrade to a dummy node, success to an ImportFrom
node) and report foreign; otherwise report not-foreign untouched. -/
def imported_member_tail (env : Env) (st : BState) (node : Nat) (member : Member)
    (modname name : String) : BState × Bool :=
  if real_name_of modname ≠ env.selfModuleName then
    (match alookup modname env.sysModules with
     | none => (attach_dummy_node st node name (some member), true)
     | some exported =>
       if name ∈ exported then (attach_import_node st node modname name, true)
       else (attach_dummy_node st node name (some member), true))
  else (st, false)

/-- Verify this is not an imported class or handle it (`imported_member`).
Reading `__module__` may be absent or raise (both leave `modname = None`);
then only the universally synthesized `__new__` and `__subclasshook__`
(or, under Jython only, any builtins name) fall back to the builtins
module, every other unknown origin getting a dummy node and a foreign
report. -/
def imported_member (env : Env) (st : BState) (node : Nat) (member : Member)
    (memberMod : ModAttr) (name : String) : BState × Bool :=
  let modname : Option String :=
    match memberMod with
    | .raises => none
    | .missing => none
    | .val s => some s
  match modname with
  | none =>
    if name = "__new__" ∨ name = "__subclasshook__"
        ∨ (name ∈ builtins_vars ∧ jython) then
      imported_member_tail env st node member builtins_module_name name
    else (attach_dummy_node st node name (some member), true)
  | some m => imported_member_tail env st node member m name

/-- Bound-method unwrapping (`six.get_method_function`): a bound method is
reduced to its underlying function before classification. -/
def unwrap_method : Member → Member
  | .meth f => .func f
  | m => m

/-- Handle one classified non-class member of the walk: the branches of
`object_build`'s chain that neither recurse nor consult the memo table.
A class member never reaches this function (the walk intercepts it); the
catch-all keeps the function total on `Member`. -/
def member_step (env : Env) (st : BState) (node : Nat) (member : Member)
    (name : String) : BState :=
  match member with
  | .func f => build_from_function env st node name (.func f) f
  | .meth f => build_from_function env st node name (.func f) f
  | .builtin b =>
    let p := if io_discrepancy b then (st, false)
             else imported_member env st node (.builtin b) b.bmodule name
    if p.2 then p.1
    else object_build_methoddescriptor p.1 node b.bname b.bdoc name
  | .methdescr dn dd => object_build_methoddescriptor st node dn dd name
  | .datadescr dn dd => (object_build_datadescriptor st node dn dd name).1
  | .constv v => attach_const_node st node name v
  | .routine f => build_from_function env st node name (.routine f) f
  | .cls _ => st
  | .other => attach_dummy_node st node name (some .other)

/-- The special-case parent fix of the class branch: when the attribute
name is `__class__` and the class node is still parentless, parent it
under the node built for the live module (`self._done[self._module]`;
the walk always memoizes the module first, so the lookup is defined
whenever the branch runs under `inspect_build`). -/
def class_parent_fix (env : Env) (st : BState) (name : String) (cnode : Nat) :
    BState :=
  if name = "__class__" ∧ (nodeAt st cnode).parent = none then
    setNode st cnode (fun d => { d with parent := alookup env.selfModuleId st.done })
  else st

/-- A suspended activation of the recursive walk: enter an object
(`tObj`, the body of `object_build`), continue its attribute loop
(`tLoop`), or handle one classified member (`tMem`). -/
inductive BTask
  | tObj (st : BState) (node : Nat) (obj : ObjId)
  | tLoop (st : BState) (node : Nat) (obj : ObjId) (names : List String)
  | tMem (st : BState) (node : Nat) (obj : ObjId) (member : Member) (name : String)
  deriving DecidableEq, Repr

/-- How a run can stop without a state: the embedding's fuel ran out, or
a live-object exception the walk does not tolerate propagated. -/
inductive BErr
  | fuelOut
  | pyExc
  deriving DecidableEq, Repr

set_option linter.unusedVariables false in
/-- The recursive walk `object_build`, embedded as a machine structurally
recursive on a fuel count that every re-entry decrements.  `tObj` is the
memo check and registration at the top of `object_build`; `tLoop` the
`for name in dir(obj)` loop with its `except AttributeError` dummy;
`tMem` the classification chain, whose class branch consults the memo,
rebinds a memoized class without rebuilding, or builds and recurses. -/
def build_step (env : Env) : Nat → BTask → Except BErr BState
  | 0, _ => .error .fuelOut
  | fuel + 1, task =>
    match task with
    | .tObj st node obj =>
      match alookup obj st.done with
      | some _ => .ok st
      | none =>
        let st1 := { st with done := (obj, node) :: st.done }
        build_step env fuel (.tLoop st1 node obj (dir_names env obj))
    | .tLoop st node obj names =>
      match names with
      | [] => .ok st
      | name :: rest =>
        match getattr_live env obj name with
        | .attrError =>
          build_step env fuel
            (.tLoop (attach_dummy_node st node name none) node obj rest)
        | .otherError => .error .pyExc
        | .ok m =>
          match build_step env fuel (.tMem st node obj (unwrap_method m) name) with
          | .error e => .error e
          | .ok st2 => build_step env fuel (.tLoop st2 node obj rest)
    | .tMem st node obj member name =>
      match member with
      | .cls cid =>
        let cd := objDataOf env cid
        let p := imported_member env st node (.cls cid) cd.cmodule name
        if p.2 then .ok p.1
        else
          match alookup cid p.1.done with
          | some cnode =>
            let st3 :=
              if cnode ∈ localsGet (nodeAt p.1 node).locals name then p.1
              else add_local_node p.1 node cnode (some name)
            .ok (class_parent_fix env st3 name cnode)
          | none =>
            let q := object_build_class env p.1 node cid name
            let st4 := { q.1 with builtFor := q.1.builtFor ++ [(cid, q.2)] }
            match build_step env fuel (.tObj st4 q.2 cid) with
            | .error e => .error e
            | .ok st5 => .ok (class_parent_fix env st5 name q.2)
      | m => .ok (member_step env st node m name)

deriving instance DecidableEq for Except

/-- Recursive method which creates a partial ast from real objects
(`object_build`), as a run of the machine. -/
def object_build (env : Env) (fuel : Nat) (st : BState) (node : Nat)
    (obj : ObjId) : Except BErr BState :=
  build_step env fuel (.tObj st node obj)

/-- The attribute loop of `object_build`, as a run of the machine. -/
def object_build_loop (env : Env) (fuel : Nat) (st : BState) (node : Nat)
    (obj : ObjId) (names : List String) : Except BErr BState :=
  build_step env fuel (.tLoop st node obj names)

/-- One classified member of the walk, as a run of the machine. -/
def object_build_member (env : Env) (fuel : Nat) (st : BState) (node : Nat)
    (obj : ObjId) (member : Member) (name : String) : Except BErr BState :=
  build_step env fuel (.tMem st node obj member name)

/-- Path normalisation (`os.path.abspath`); the filesystem is outside
this core, so paths are kept as given. -/
def os_path_abspath (p : String) : String := p

/-- The `path and os.path.abspath(path) or path` idiom of
`inspect_build`: a falsy (absent or empty) path is kept as is. -/
def path_or_abspath (path : Option String) : Option String :=
  path.map (fun p => if p = "" then p else os_path_abspath p)

/-- The state-preparing half of `inspect_build` (its body up to and
including `self._done = {}`): create the Module node, record its file,
register it in the global module cache under the module's name, set its
package flag, and reset the memo table.  The ghost log is likewise
reset, seeded with the module node itself.  Returns the prepared state
and the module node. -/
def inspect_build_pre (env : Env) (st : BState) (modname path : Option String) :
    BState × Nat :=
  let mn := modname.getD env.selfModuleName
  let doc : Option String :=
    match env.selfModuleDoc with
    | some d => d
    | none => none
  let p := build_module st mn doc
  let st2 := setNode p.1 p.2
    (fun d => { d with file := path_or_abspath path, nname := some mn })
  let st3 := { st2 with cache := (mn, p.2) :: st2.cache }
  let st4 := setNode st3 p.2 (fun d => { d with package := env.selfModuleHasPath })
  ({ st4 with done := [], builtFor := [(env.selfModuleId, p.2)] }, p.2)

/-- Build astroid from a living module (`inspect_build`): prepare the
module node and state, then walk the module's attribute surface. -/
def inspect_build (env : Env) (fuel : Nat) (st : BState)
    (modname path : Option String) : Except BErr (BState × Nat) :=
  let pre := inspect_build_pre env st modname path
  match object_build env fuel pre.1 pre.2 env.selfModuleId with
  | .error e => .error e
  | .ok st6 => .ok (st6, pre.2)

/-- The recognized constant types in the iteration order of the external
`node_classes.CONST_CLS` dict: the four container types of its literal,
then the two synthesized singleton types, then the scalar types
`_update_const_classes` adds. -/
def const_cls_keys : List PyType :=
  [.listType, .tupleType, .dictType, .setType, .noneType, .notImplType,
   .boolType, .intType, .floatType, .complexType, .strType, .bytesType]

/-- Modelled from the spec: `Module.getattr` of the external node
taxonomy, as the bootstrap uses it — fetch the first node bound to a name
in the built-in module's local-name table (`astroid_builtin.getattr(name)[0]`,
failing when the name has no binding). -/
def module_getattr_first (st : BState) (nid : Nat) (name : String) : Option Nat :=
  (alookup name (nodeAt st nid).locals).bind List.head?

/-- The proxy registrations the bootstrap produces: the constant-proxy
table `_CONST_PROXY`, and the proxies wired directly onto the List,
Tuple, Dict and Set node variants (`node_cls._proxied = proxy`). -/
structure ConstProxies where
  table : List (PyType × Nat) := []
  listProxied : Option Nat := none
  tupleProxied : Option Nat := none
  dictProxied : Option Nat := none
  setProxied : Option Nat := none
  deriving DecidableEq, Repr

/-- Register one proxy: the four container types go directly onto their
node variant, every other type into the constant-proxy table. -/
def register_proxy (acc : ConstProxies) (t : PyType) (pid : Nat) : ConstProxies :=
  match t with
  | .dictType => { acc with dictProxied := some pid }
  | .listType => { acc with listProxied := some pid }
  | .setType => { acc with setProxied := some pid }
  | .tupleType => { acc with tupleProxied := some pid }
  | _ => { acc with table := acc.table ++ [(t, pid)] }

/-- The loop of `_astroid_bootstrapping` over the recognized constant
types: the `NoneType` and `NotImplementedType` proxies are synthesized
fresh and parented under the built-in module, every other proxy is
fetched from the built-in module's local-name table by the type's name
(a missing binding fails the bootstrap). -/
def bootstrap_loop (astroid_builtin : Nat) :
    List PyType → BState → ConstProxies → Option (BState × ConstProxies)
  | [], st, acc => some (st, acc)
  | t :: rest, st, acc =>
    let step : Option (BState × Nat) :=
      if t = .noneType then
        let p := build_class st "NoneType" [] none
        some (setNode p.1 p.2 (fun d => { d with parent := some astroid_builtin }),
              p.2)
      else if t = .notImplType then
        let p := build_class st "NotImplementedType" [] none
        some (setNode p.1 p.2 (fun d => { d with parent := some astroid_builtin }),
              p.2)
      else (module_getattr_first st astroid_builtin (type_name t)).map
        (fun pid => (st, pid))
    match step with
    | none => none
    | some (st2, pid) => bootstrap_loop astroid_builtin rest st2 (register_proxy acc t pid)

/-- Astroid bootstrapping of the builtins module
(`_astroid_bootstrapping`), taking the already built built-in Module
node: build or fetch a proxy ClassDef for each recognized constant type
and register it. -/
def astroid_bootstrapping (st : BState) (astroid_builtin : Nat) :
    Option (BState × ConstProxies) :=
  bootstrap_loop astroid_builtin const_cls_keys st {}

/-- The lazily resolved class of a Const node (`_set_proxied`, wired as
the `_proxied` property): look the runtime type of the wrapped value up
in the constant-proxy table at read time. -/
def set_proxied (cp : ConstProxies) (v : ConstVal) : Option Nat :=
  alookup v.ctype cp.table

/-! ## Basic lemmas about lookups, the heap and local-name tables -/

/-! ## Derived parameters, instrumentation predicates and concrete
environments used by the verification below -/

/-- The three tables of the builder state, bundled for preservation
lemmas. -/
def tables (s : BState) :
    List (ObjId × Nat) × List (String × Nat) × List (ObjId × Nat) :=
  (s.done, s.cache, s.builtFor)

/-- The builder state a suspended activation carries. -/
def taskState : BTask → BState
  | .tObj st _ _ => st
  | .tLoop st _ _ _ => st
  | .tMem st _ _ _ _ => st

/-- The live objects the ghost log says a node was constructed for. -/
def bKeys (st : BState) : List ObjId :=
  st.builtFor.map Prod.fst

/-- Precondition of the ghost-log argument: the log has no duplicate
object, and every logged object is already memoized — except, on entry to
`object_build`, possibly the object being entered itself, whose memo
registration is the first thing the body does. -/
def bPre : BTask → Prop
  | .tObj st _ obj =>
    (bKeys st).Nodup ∧ ∀ k ∈ bKeys st, (alookup k st.done).isSome ∨ k = obj
  | .tLoop st _ _ _ =>
    (bKeys st).Nodup ∧ ∀ k ∈ bKeys st, (alookup k st.done).isSome
  | .tMem st _ _ _ _ =>
    (bKeys st).Nodup ∧ ∀ k ∈ bKeys st, (alookup k st.done).isSome

/-- The identities of the live objects in the environment. -/
def univ_finset (env : Env) : Finset ObjId :=
  (env.objs.map Prod.fst).toFinset

/-- Well-formedness of a live object graph: the builder's module is a
live object of the graph, and every class-valued attribute of a live
object refers to a live object of the graph. -/
def wf_env (env : Env) : Bool :=
  (alookup env.selfModuleId env.objs).isSome &&
  env.objs.all (fun po => po.2.attrs.all (fun pa =>
    match pa.2 with
    | .ok (.cls cid) => (alookup cid env.objs).isSome
    | _ => true))

/-- The work still owed for the not-yet-memoized objects of the graph:
every unvisited object contributes its attribute count plus a constant
covering the bookkeeping activations. -/
def potentialD (env : Env) (done : List (ObjId × Nat)) : Nat :=
  Finset.sum ((univ_finset env).filter (fun k => ¬ (alookup k done).isSome))
    (fun k => (dir_names env k).length + 4)

/-- The fuel each activation provably survives on. -/
def taskHyp (env : Env) (fuel : Nat) : BTask → Prop
  | .tObj st _ obj =>
    1 ≤ fuel ∧ potentialD env st.done ≤ fuel + 2 ∧
      ((alookup obj st.done).isSome ∨ obj ∈ univ_finset env)
  | .tLoop st _ _ names => names.length + potentialD env st.done + 1 ≤ fuel
  | .tMem st _ _ member _ =>
    1 ≤ fuel ∧ potentialD env st.done ≤ fuel + 1 ∧
      ∀ cid, member = .cls cid →
        ((alookup cid st.done).isSome ∨ cid ∈ univ_finset env)

/-- Whether the import probe `getattr(sys.modules[modname], name)` would
succeed in this environment. -/
def probe_ok (env : Env) (modname name : String) : Bool :=
  match alookup modname env.sysModules with
  | some exported => decide (name ∈ exported)
  | none => false

/-- A module being built, with one registry module `"os"` exposing `"f"`,
used to exercise the import-or-local decision. -/
def envC4 : Env :=
  { objs := [(0, { dirNames := [], attrs := [] })],
    selfModuleId := 0, selfModuleName := "m",
    sysModules := [("os", ["f"])] }

/-- A one-node state whose node 0 stands for the module being built. -/
def stC4 : BState :=
  (build_module {} "m" none).1

/-- A module whose single attribute raises an exception other than
`AttributeError` when fetched. -/
def envC2 : Env :=
  { objs := [(0, { dirNames := ["bad"], attrs := [("bad", .otherError)] })],
    selfModuleId := 0, selfModuleName := "m" }

/-- A live module `m` whose class `A` has an attribute `b` that is `A`
itself: the canonical cyclic object graph. -/
def envCyc : Env :=
  { objs := [(0, { dirNames := ["A"], attrs := [("A", .ok (.cls 1))] }),
             (1, { dirNames := ["b"], attrs := [("b", .ok (.cls 1))],
                   cname := some "A", cmodule := .val "m" })],
    selfModuleId := 0, selfModuleName := "m" }

/-- A concrete built-in module whose local-name table binds every scalar
constant-type name, for exercising the bootstrap. -/
def stC8 : BState :=
  { heap := [{ kind := .module, nname := some "builtins",
               locals := [("list", [10]), ("tuple", [11]), ("dict", [12]),
                 ("set", [13]), ("bool", [14]), ("int", [15]), ("float", [16]),
                 ("complex", [17]), ("str", [18]), ("bytes", [19])] }] }

/-- Fuel sufficient for a full walk from an empty memo table: the total
potential of the graph plus the entry activation. -/
def suff_fuel (env : Env) : Nat := potentialD env [] + 1

/-- A live function reachable from its module under two names. -/
def fA : FuncData :=
  { fname := some "f", code := some { co_filename := "m.py", co_flags := 0 } }

/-- A live module binding the very same live function object under the
two names `f` and `g`. -/
def envA : Env :=
  { objs := [(0, { dirNames := ["f", "g"],
                   attrs := [("f", .ok (.func fA)), ("g", .ok (.func fA))] })],
    selfModuleId := 0, selfModuleName := "m", selfModuleFile := some "m.py" }

theorem alookup_nil {α β : Type} [DecidableEq α] (k : α) :
    alookup k ([] : List (α × β)) = none := rfl

theorem alookup_cons {α β : Type} [DecidableEq α] (k a : α) (b : β)
    (l : List (α × β)) :
    alookup k ((a, b) :: l) = if a = k then some b else alookup k l := rfl

theorem alookup_mem {α β : Type} [DecidableEq α] {k : α} {v : β} :
    ∀ {l : List (α × β)}, alookup k l = some v → (k, v) ∈ l := by
  intro l
  induction l with
  | nil => intro h; exact absurd h (by simp [alookup])
  | cons p rest ih =>
    intro h
    rw [show p = (p.1, p.2) from rfl, alookup_cons] at h
    by_cases hk : p.1 = k
    · simp [hk] at h
      subst hk h
      exact List.mem_cons_self _ _
    · simp [hk] at h
      exact List.mem_cons_of_mem _ (ih h)

theorem alookup_isSome_of_mem_keys {α β : Type} [DecidableEq α] {k : α} :
    ∀ {l : List (α × β)}, k ∈ l.map Prod.fst → (alookup k l).isSome := by
  intro l
  induction l with
  | nil => simp
  | cons p rest ih =>
    intro h
    rw [show p = (p.1, p.2) from rfl, alookup_cons]
    by_cases hk : p.1 = k
    · simp [hk]
    · simp only [List.map_cons, List.mem_cons] at h
      rcases h with h | h

      · exact absurd h.symm hk
      · simp only [hk, if_false]
        exact ih h

theorem mem_keys_of_alookup_isSome {α β : Type} [DecidableEq α] {k : α} :
    ∀ {l : List (α × β)}, (alookup k l).isSome → k ∈ l.map Prod.fst := by
  intro l
  induction l with
  | nil => simp [alookup]
  | cons p rest ih =>
    intro h
    rw [show p = (p.1, p.2) from rfl, alookup_cons] at h
    by_cases hk : p.1 = k
    · simp [hk]
    · simp only [hk, if_false] at h
      simp only [List.map_cons, List.mem_cons]
      exact Or.inr (ih h)

theorem length_setNode (st : BState) (i : Nat) (f : NodeData → NodeData) :
    (setNode st i f).heap.length = st.heap.length := by
  simp [setNode]

theorem length_addNode_fst (st : BState) (d : NodeData) :
    (addNode st d).1.heap.length = st.heap.length + 1 := by
  simp [addNode]

theorem nodeAt_addNode_fst_lt (st : BState) (d : NodeData) {i : Nat}
    (h : i < st.heap.length) : nodeAt (addNode st d).1 i = nodeAt st i := by
  simp [addNode, nodeAt, List.getElem?_append_left h]

theorem nodeAt_addNode_fst_len (st : BState) (d : NodeData) :
    nodeAt (addNode st d).1 st.heap.length = d := by
  simp [addNode, nodeAt, List.getElem?_concat_length]

theorem addNode_snd (st : BState) (d : NodeData) :
    (addNode st d).2 = st.heap.length := rfl

theorem nodeAt_setNode_ne (st : BState) (i : Nat) (f : NodeData → NodeData)
    {j : Nat} (h : j ≠ i) : nodeAt (setNode st i f) j = nodeAt st j := by
  simp [setNode, nodeAt, List.getElem?_set_ne (Ne.symm h)]

theorem nodeAt_setNode_self (st : BState) (i : Nat) (f : NodeData → NodeData)
    (h : i < st.heap.length) : nodeAt (setNode st i f) i = f (nodeAt st i) := by
  simp only [setNode, nodeAt]
  rw [List.getElem?_set_eq_of_lt _ h]
  rfl

theorem localsGet_localsAdd_same (ls : List (String × List Nat)) (k : String)
    (v : Nat) : localsGet (localsAdd ls k v) k = localsGet ls k ++ [v] := by
  induction ls with
  | nil => simp [localsAdd, localsGet, alookup]
  | cons p rest ih =>
    obtain ⟨a, b⟩ := p
    simp only [localsAdd]
    by_cases hk : a = k
    · simp [hk, localsGet, alookup]
    · simp only [hk, if_false]
      simpa [localsGet, alookup_cons, hk] using ih

theorem localsGet_localsAdd_ne (ls : List (String × List Nat)) (k : String)
    (v : Nat) {k' : String} (h : k' ≠ k) :
    localsGet (localsAdd ls k v) k' = localsGet ls k' := by
  induction ls with
  | nil => simp [localsAdd, localsGet, alookup, Ne.symm h]
  | cons p rest ih =>
    obtain ⟨a, b⟩ := p
    simp only [localsAdd]
    by_cases hk : a = k
    · subst hk
      simp [localsGet, alookup_cons, Ne.symm h]
    · simp only [hk, if_false]
      by_cases hk' : a = k'
      · simp [localsGet, alookup_cons, hk']
      · simpa [localsGet, alookup_cons, hk'] using ih

/-! ## The node-factory helpers never touch the builder's tables

The memo table, the module cache and the ghost log change only inside the
walk itself; every attach/build helper is pure heap surgery. -/

theorem tables_foldl {α : Type} (f : BState → α → BState)
    (h : ∀ s a, tables (f s a) = tables s) :
    ∀ (l : List α) (s : BState), tables (l.foldl f s) = tables s := by
  intro l
  induction l with
  | nil => intro s; rfl
  | cons a rest ih => intro s; rw [List.foldl_cons, ih, h]

@[simp] theorem tables_setNode (st : BState) (i : Nat) (f : NodeData → NodeData) :
    tables (setNode st i f) = tables st := rfl

@[simp] theorem tables_addNode_fst (st : BState) (d : NodeData) :
    tables (addNode st d).1 = tables st := rfl

@[simp] theorem tables_set_local (st : BState) (scope : Nat) (name : String)
    (child : Nat) : tables (set_local st scope name child) = tables st := rfl

@[simp] theorem tables_add_local_node (st : BState) (parent child : Nat)
    (name : Option String) : tables (add_local_node st parent child name) = tables st := rfl

@[simp] theorem tables_attach_local_node (st : BState) (parent child : Nat)
    (name : String) : tables (attach_local_node st parent child name) = tables st := rfl

@[simp] theorem tables_attach_dummy_node (st : BState) (node : Nat) (name : String)
    (obj : Option Member) : tables (attach_dummy_node st node name obj) = tables st := rfl

@[simp] theorem tables_attach_const_node (st : BState) (node : Nat) (name : String)
    (v : ConstVal) : tables (attach_const_node st node name v) = tables st := by
  unfold attach_const_node
  split <;> rfl

@[simp] theorem tables_attach_import_node (st : BState) (node : Nat)
    (modname membername : String) :
    tables (attach_import_node st node modname membername) = tables st := rfl

@[simp] theorem tables_build_module_fst (st : BState) (name : String)
    (doc : Option String) : tables (build_module st name doc).1 = tables st := rfl

@[simp] theorem tables_build_class_fst (st : BState) (name : String)
    (basenames : List String) (doc : Option String) :
    tables (build_class st name basenames doc).1 = tables st := by
  refine (tables_foldl _ ?_ basenames _).trans ?_
  · intro s a; rfl
  · rfl

@[simp] theorem tables_register_arguments (st : BState) (fid : Nat) :
    tables (register_arguments st fid) = tables st := by
  unfold register_arguments
  split
  · rfl
  · refine (tables_foldl _ ?_ _ _).trans ?_
    · intro s a; rfl
    · split <;> split <;> rfl

@[simp] theorem tables_build_function_fst (st : BState) (name : String)
    (args : List String) (defaults : List ConstVal) (flag : Nat)
    (doc : Option String) :
    tables (build_function st name args defaults flag doc).1 = tables st := by
  unfold build_function
  simp only
  split
  · rw [tables_setNode, tables_foldl (addDefault _) (fun s a => rfl),
      tables_foldl (addArgName _) (fun s a => rfl)]
    rfl
  · rw [tables_register_arguments, tables_setNode,
      tables_foldl (addDefault _) (fun s a => rfl),
      tables_foldl (addArgName _) (fun s a => rfl)]
    rfl

@[simp] theorem tables_object_build_function (st : BState) (node : Nat)
    (f : FuncData) (localname : String) :
    tables (object_build_function st node f localname) = tables st := by
  unfold object_build_function
  rw [tables_add_local_node, tables_build_function_fst]

@[simp] theorem tables_object_build_methoddescriptor (st : BState) (node : Nat)
    (mname mdoc : Option String) (localname : String) :
    tables (object_build_methoddescriptor st node mname mdoc localname) = tables st := by
  unfold object_build_methoddescriptor
  simp only [tables_add_local_node]
  split
  · rw [tables_setNode, tables_build_function_fst]
  · rw [tables_build_function_fst]

@[simp] theorem tables_base_class_object_build_fst (st : BState) (node : Nat)
    (basenames : List String) (name localname mname mdoc : Option String)
    (newstyle isExc : Bool) (instDict : Option (List (String × Member))) :
    tables (base_class_object_build st node basenames name localname mname mdoc
      newstyle isExc instDict).1 = tables st := by
  unfold base_class_object_build
  simp only
  split
  · split
    · rw [tables_foldl (harvestAttr _) (fun s a => rfl), tables_add_local_node,
        tables_setNode, tables_build_class_fst]
    · rw [tables_add_local_node, tables_setNode, tables_build_class_fst]
  · rw [tables_add_local_node, tables_setNode, tables_build_class_fst]

@[simp] theorem tables_object_build_class_fst (env : Env) (st : BState) (node : Nat)
    (cid : ObjId) (localname : String) :
    tables (object_build_class env st node cid localname).1 = tables st := by
  unfold object_build_class
  rw [tables_base_class_object_build_fst]

@[simp] theorem tables_object_build_datadescriptor_fst (st : BState) (node : Nat)
    (dname ddoc : Option String) (name : String) :
    tables (object_build_datadescriptor st node dname ddoc name).1 = tables st := by
  unfold object_build_datadescriptor
  rw [tables_base_class_object_build_fst]

@[simp] theorem tables_build_from_function (env : Env) (st : BState) (node : Nat)
    (name : String) (member : Member) (f : FuncData) :
    tables (build_from_function env st node name member f) = tables st := by
  cases hc : f.code with
  | none => simp [build_from_function, hc]
  | some c =>
    simp only [build_from_function, hc, Option.map_some']
    split
    · rw [tables_attach_dummy_node]
    · rw [tables_object_build_function]

@[simp] theorem tables_imported_member_tail_fst (env : Env) (st : BState)
    (node : Nat) (member : Member) (modname name : String) :
    tables (imported_member_tail env st node member modname name).1 = tables st := by
  unfold imported_member_tail
  split
  · split
    · rw [tables_attach_dummy_node]
    · split
      · rw [tables_attach_import_node]
      · rw [tables_attach_dummy_node]
  · rfl

@[simp] theorem tables_imported_member_fst (env : Env) (st : BState) (node : Nat)
    (member : Member) (memberMod : ModAttr) (name : String) :
    tables (imported_member env st node member memberMod name).1 = tables st := by
  cases memberMod <;> simp only [imported_member]
  · split
    · rw [tables_imported_member_tail_fst]
    · rw [tables_attach_dummy_node]
  · split
    · rw [tables_imported_member_tail_fst]
    · rw [tables_attach_dummy_node]
  · rw [tables_imported_member_tail_fst]

@[simp] theorem tables_member_step (env : Env) (st : BState) (node : Nat)
    (member : Member) (name : String) :
    tables (member_step env st node member name) = tables st := by
  cases member with
  | builtin b =>
    simp only [member_step]
    by_cases hio : io_discrepancy b
    · simp [hio]
    · simp only [hio, Bool.false_eq_true, if_false, ite_false]
      split
      · rw [tables_imported_member_fst]
      · rw [tables_object_build_methoddescriptor, tables_imported_member_fst]
  | meth f => simp [member_step]
  | func f => simp [member_step]
  | cls c => simp [member_step]
  | methdescr dn dd => simp [member_step]
  | datadescr dn dd => simp [member_step]
  | constv v => simp [member_step]
  | routine f => simp [member_step]
  | other => simp [member_step]

@[simp] theorem tables_class_parent_fix (env : Env) (st : BState) (name : String)
    (cnode : Nat) : tables (class_parent_fix env st name cnode) = tables st := by
  unfold class_parent_fix
  split <;> rfl

/-! ## Invariants of the walk: the cache is read-only, the memo only grows -/

theorem done_of_tables {a b : BState} (h : tables a = tables b) : a.done = b.done := by
  have hh := congrArg Prod.fst h
  simpa [tables] using hh

theorem cache_of_tables {a b : BState} (h : tables a = tables b) : a.cache = b.cache := by
  have hh := congrArg (fun t => t.2.1) h
  simpa [tables] using hh

theorem builtFor_of_tables {a b : BState} (h : tables a = tables b) :
    a.builtFor = b.builtFor := by
  have hh := congrArg (fun t => t.2.2) h
  simpa [tables] using hh

theorem alookup_cons_preserve {α β : Type} [DecidableEq α] {k obj : α} {v : β}
    {node : β} {l : List (α × β)} (hne : alookup obj l = none)
    (h : alookup k l = some v) : alookup k ((obj, node) :: l) = some v := by
  rw [alookup_cons]
  by_cases he : obj = k
  · subst he
    rw [hne] at h
    exact absurd h (by simp)
  · simp [he, h]

/-- A successful run of the walk never writes the module cache, and never
removes or overwrites a memo entry: every binding of `self._done` visible
at the start is intact, under the same node, at the end. -/
theorem build_step_inv (env : Env) : ∀ (fuel : Nat) (task : BTask) (st' : BState),
    build_step env fuel task = .ok st' →
    st'.cache = (taskState task).cache ∧
    ∀ k v, alookup k (taskState task).done = some v → alookup k st'.done = some v := by
  intro fuel
  induction fuel with
  | zero =>
    intro task st' h
    exact absurd h (by simp [build_step])
  | succ fuel ih =>
    intro task st' h
    cases task with
    | tObj st node obj =>
      simp only [build_step] at h
      split at h
      · cases h
        exact ⟨rfl, fun k v hv => hv⟩
      · rename_i heq
        obtain ⟨hc, hd⟩ := ih _ _ h
        exact ⟨hc, fun k v hv => hd k v (alookup_cons_preserve heq hv)⟩
    | tLoop st node obj names =>
      simp only [build_step] at h
      cases names with
      | nil =>
        cases h
        exact ⟨rfl, fun k v hv => hv⟩
      | cons name rest =>
        simp only at h
        split at h
        · obtain ⟨hc, hd⟩ := ih _ _ h
          have ht := tables_attach_dummy_node st node name none
          exact ⟨hc.trans (cache_of_tables ht), fun k v hv =>
            hd k v (by rw [taskState, done_of_tables ht]; exact hv)⟩
        · exact absurd h (by simp)
        · rename_i m hm
          revert h
          cases hrec : build_step env fuel (.tMem st node obj (unwrap_method m) name) with
          | error e => intro h; exact absurd h (by simp)
          | ok st2 =>
            intro h
            obtain ⟨hc1, hd1⟩ := ih _ _ hrec
            obtain ⟨hc2, hd2⟩ := ih _ _ h
            exact ⟨hc2.trans hc1, fun k v hv => hd2 k v (hd1 k v hv)⟩
    | tMem st node obj member name =>
      simp only [build_step] at h
      cases member with
      | cls cid =>
        simp only at h
        set p := imported_member env st node (.cls cid) (objDataOf env cid).cmodule name
          with hp
        have htp : tables p.1 = tables st := by
          rw [hp]
          exact tables_imported_member_fst env st node (.cls cid)
            (objDataOf env cid).cmodule name
        split at h
        · cases h
          exact ⟨cache_of_tables htp, fun k v hv => by
            rw [done_of_tables htp]; exact hv⟩
        · split at h
          · rename_i cnode hfound
            cases h
            constructor
            · rw [cache_of_tables (tables_class_parent_fix env _ name cnode)]
              split
              · exact cache_of_tables htp
              · rw [cache_of_tables (tables_add_local_node _ node cnode (some name))]
                exact cache_of_tables htp
            · intro k v hv
              rw [done_of_tables (tables_class_parent_fix env _ name cnode)]
              split
              · rw [done_of_tables htp]; exact hv
              · rw [done_of_tables (tables_add_local_node _ node cnode (some name)),
                  done_of_tables htp]
                exact hv
          · rename_i hnotfound
            set q := object_build_class env p.1 node cid name with hq
            have htq : tables q.1 = tables p.1 := by
              rw [hq]
              exact tables_object_build_class_fst env p.1 node cid name
            split at h
            · exact absurd h (by simp)
            · rename_i st5 hrec
              cases h
              obtain ⟨hc1, hd1⟩ := ih _ _ hrec
              simp only [taskState] at hc1 hd1
              constructor
              · rw [cache_of_tables (tables_class_parent_fix env st5 name q.2), hc1]
                have hqc : ({ q.1 with
                    builtFor := q.1.builtFor ++ [(cid, q.2)] } : BState).cache
                    = q.1.cache := rfl
                rw [hqc, cache_of_tables htq, cache_of_tables htp]
                rfl
              · intro k v hv
                rw [done_of_tables (tables_class_parent_fix env st5 name q.2)]
                refine hd1 k v ?_
                have hqd : ({ q.1 with
                    builtFor := q.1.builtFor ++ [(cid, q.2)] } : BState).done
                    = q.1.done := rfl
                rw [hqd, done_of_tables htq, done_of_tables htp]
                exact hv
      | meth f =>
        cases h
        exact ⟨cache_of_tables (tables_member_step env st node _ name),
          fun k v hv => by
            rw [done_of_tables (tables_member_step env st node _ name)]; exact hv⟩
      | func f =>
        cases h
        exact ⟨cache_of_tables (tables_member_step env st node _ name),
          fun k v hv => by
            rw [done_of_tables (tables_member_step env st node _ name)]; exact hv⟩
      | builtin b =>
        cases h
        exact ⟨cache_of_tables (tables_member_step env st node _ name),
          fun k v hv => by
            rw [done_of_tables (tables_member_step env st node _ name)]; exact hv⟩
      | methdescr dn dd =>
        cases h
        exact ⟨cache_of_tables (tables_member_step env st node _ name),
          fun k v hv => by
            rw [done_of_tables (tables_member_step env st node _ name)]; exact hv⟩
      | datadescr dn dd =>
        cases h
        exact ⟨cache_of_tables (tables_member_step env st node _ name),
          fun k v hv => by
            rw [done_of_tables (tables_member_step env st node _ name)]; exact hv⟩
      | constv v =>
        cases h
        exact ⟨cache_of_tables (tables_member_step env st node _ name),
          fun k v hv => by
            rw [done_of_tables (tables_member_step env st node _ name)]; exact hv⟩
      | routine f =>
        cases h
        exact ⟨cache_of_tables (tables_member_step env st node _ name),
          fun k v hv => by
            rw [done_of_tables (tables_member_step env st node _ name)]; exact hv⟩
      | other =>
        cases h
        exact ⟨cache_of_tables (tables_member_step env st node _ name),
          fun k v hv => by
            rw [done_of_tables (tables_member_step env st node _ name)]; exact hv⟩

/-! ## At most one node is constructed per walked object -/

theorem alookup_cons_isSome {α β : Type} [DecidableEq α] {k a : α} {b : β}
    {l : List (α × β)} (h : (alookup k l).isSome) :
    (alookup k ((a, b) :: l)).isSome := by
  rw [alookup_cons]
  by_cases he : a = k
  · simp [he]
  · simpa [he] using h

/-- A successful run of the walk keeps the ghost log duplicate-free: no
live object ever has two nodes constructed for it. -/
theorem build_step_builtFor (env : Env) :
    ∀ (fuel : Nat) (task : BTask) (st' : BState),
    build_step env fuel task = .ok st' → bPre task →
    (bKeys st').Nodup ∧ ∀ k ∈ bKeys st', (alookup k st'.done).isSome := by
  intro fuel
  induction fuel with
  | zero =>
    intro task st' h
    exact absurd h (by simp [build_step])
  | succ fuel ih =>
    intro task st' h hpre
    cases task with
    | tObj st node obj =>
      simp only [build_step] at h
      split at h
      · rename_i nd hfound
        cases h
        refine ⟨hpre.1, fun k hk => ?_⟩
        rcases hpre.2 k hk with hs | he
        · exact hs
        · subst he
          rw [hfound]
          rfl
      · rename_i hmiss
        refine ih _ _ h ⟨hpre.1, fun k hk => ?_⟩
        show (alookup k ((obj, node) :: st.done)).isSome
        rcases hpre.2 k hk with hs | he
        · exact alookup_cons_isSome hs
        · subst he
          rw [alookup_cons]
          simp
    | tLoop st node obj names =>
      simp only [build_step] at h
      cases names with
      | nil =>
        cases h
        exact hpre
      | cons name rest =>
        simp only at h
        split at h
        · refine ih _ _ h ?_
          have ht := tables_attach_dummy_node st node name none
          exact ⟨by rw [show bKeys _ = bKeys st from
              congrArg (List.map Prod.fst) (builtFor_of_tables ht)]; exact hpre.1,
            fun k hk => by
              rw [show bKeys _ = bKeys st from
                congrArg (List.map Prod.fst) (builtFor_of_tables ht)] at hk
              rw [done_of_tables ht]
              exact hpre.2 k hk⟩
        · exact absurd h (by simp)
        · rename_i m hm
          revert h
          cases hrec : build_step env fuel (.tMem st node obj (unwrap_method m) name) with
          | error e => intro h; exact absurd h (by simp)
          | ok st2 =>
            intro h
            exact ih _ _ h (ih _ _ hrec hpre)
    | tMem st node obj member name =>
      simp only [build_step] at h
      cases member with
      | cls cid =>
        simp only at h
        set p := imported_member env st node (.cls cid) (objDataOf env cid).cmodule name
          with hp
        have htp : tables p.1 = tables st := by
          rw [hp]
          exact tables_imported_member_fst env st node (.cls cid)
            (objDataOf env cid).cmodule name
        have hbkp : bKeys p.1 = bKeys st :=
          congrArg (List.map Prod.fst) (builtFor_of_tables htp)
        split at h
        · cases h
          exact ⟨by rw [hbkp]; exact hpre.1, fun k hk => by
            rw [done_of_tables htp]
            exact hpre.2 k (by rw [hbkp] at hk; exact hk)⟩
        · split at h
          · rename_i cnode hfound
            cases h
            have htf : tables (class_parent_fix env
                (if cnode ∈ localsGet (nodeAt p.1 node).locals name then p.1
                 else add_local_node p.1 node cnode (some name)) name cnode)
                = tables st := by
              rw [tables_class_parent_fix]
              split
              · exact htp
              · rw [tables_add_local_node]
                exact htp
            refine ⟨?_, fun k hk => ?_⟩
            · rw [show bKeys _ = bKeys st from
                congrArg (List.map Prod.fst) (builtFor_of_tables htf)]
              exact hpre.1
            · rw [show bKeys _ = bKeys st from
                congrArg (List.map Prod.fst) (builtFor_of_tables htf)] at hk
              rw [done_of_tables htf]
              exact hpre.2 k hk
          · rename_i hnotfound
            set q := object_build_class env p.1 node cid name with hq
            have htq : tables q.1 = tables p.1 := by
              rw [hq]
              exact tables_object_build_class_fst env p.1 node cid name
            split at h
            · exact absurd h (by simp)
            · rename_i st5 hrec
              cases h
              have hcnot : ¬ (alookup cid st.done).isSome := by
                rw [← done_of_tables htp, hnotfound]
                simp
              have hcmem : cid ∉ bKeys st := fun hmem => hcnot (hpre.2 cid hmem)
              have hst4 : bKeys ({ q.1 with
                  builtFor := q.1.builtFor ++ [(cid, q.2)] } : BState)
                  = bKeys st ++ [cid] := by
                show (q.1.builtFor ++ [(cid, q.2)]).map Prod.fst = bKeys st ++ [cid]
                rw [List.map_append]
                rw [show q.1.builtFor.map Prod.fst = bKeys st from
                  (congrArg (List.map Prod.fst)
                    ((builtFor_of_tables htq).trans (builtFor_of_tables htp)))]
                rfl
              have hpost := ih _ _ hrec ⟨by
                  rw [hst4, List.nodup_append]
                  refine ⟨hpre.1, List.nodup_singleton cid, ?_⟩
                  intro a ha hc
                  rw [List.mem_singleton] at hc
                  subst hc
                  exact hcmem ha,
                fun k hk => by
                  rw [hst4] at hk
                  have hd4 : ({ q.1 with
                      builtFor := q.1.builtFor ++ [(cid, q.2)] } : BState).done
                      = st.done := by
                    show q.1.done = st.done
                    rw [done_of_tables htq, done_of_tables htp]
                  rw [hd4]
                  rcases List.mem_append.mp hk with hk | hk
                  · exact Or.inl (hpre.2 k hk)
                  · exact Or.inr (by simpa using hk)⟩
              refine ⟨?_, fun k hk => ?_⟩
              · rw [show bKeys _ = bKeys st5 from congrArg (List.map Prod.fst)
                  (builtFor_of_tables (tables_class_parent_fix env st5 name q.2))]
                exact hpost.1
              · rw [show bKeys _ = bKeys st5 from congrArg (List.map Prod.fst)
                  (builtFor_of_tables (tables_class_parent_fix env st5 name q.2))] at hk
                rw [done_of_tables (tables_class_parent_fix env st5 name q.2)]
                exact hpost.2 k hk
      | meth f =>
        cases h
        have ht := tables_member_step env st node (.meth f) name
        exact ⟨by rw [show bKeys _ = bKeys st from
            congrArg (List.map Prod.fst) (builtFor_of_tables ht)]; exact hpre.1,
          fun k hk => by
            rw [show bKeys _ = bKeys st from
              congrArg (List.map Prod.fst) (builtFor_of_tables ht)] at hk
            rw [done_of_tables ht]
            exact hpre.2 k hk⟩
      | func f =>
        cases h
        have ht := tables_member_step env st node (.func f) name
        exact ⟨by rw [show bKeys _ = bKeys st from
            congrArg (List.map Prod.fst) (builtFor_of_tables ht)]; exact hpre.1,
          fun k hk => by
            rw [show bKeys _ = bKeys st from
              congrArg (List.map Prod.fst) (builtFor_of_tables ht)] at hk
            rw [done_of_tables ht]
            exact hpre.2 k hk⟩
      | builtin b =>
        cases h
        have ht := tables_member_step env st node (.builtin b) name
        exact ⟨by rw [show bKeys _ = bKeys st from
            congrArg (List.map Prod.fst) (builtFor_of_tables ht)]; exact hpre.1,
          fun k hk => by
            rw [show bKeys _ = bKeys st from
              congrArg (List.map Prod.fst) (builtFor_of_tables ht)] at hk
            rw [done_of_tables ht]
            exact hpre.2 k hk⟩
      | methdescr dn dd =>
        cases h
        have ht := tables_member_step env st node (.methdescr dn dd) name
        exact ⟨by rw [show bKeys _ = bKeys st from
            congrArg (List.map Prod.fst) (builtFor_of_tables ht)]; exact hpre.1,
          fun k hk => by
            rw [show bKeys _ = bKeys st from
              congrArg (List.map Prod.fst) (builtFor_of_tables ht)] at hk
            rw [done_of_tables ht]
            exact hpre.2 k hk⟩
      | datadescr dn dd =>
        cases h
        have ht := tables_member_step env st node (.datadescr dn dd) name
        exact ⟨by rw [show bKeys _ = bKeys st from
            congrArg (List.map Prod.fst) (builtFor_of_tables ht)]; exact hpre.1,
          fun k hk => by
            rw [show bKeys _ = bKeys st from
              congrArg (List.map Prod.fst) (builtFor_of_tables ht)] at hk
            rw [done_of_tables ht]
            exact hpre.2 k hk⟩
      | constv v =>
        cases h
        have ht := tables_member_step env st node (.constv v) name
        exact ⟨by rw [show bKeys _ = bKeys st from
            congrArg (List.map Prod.fst) (builtFor_of_tables ht)]; exact hpre.1,
          fun k hk => by
            rw [show bKeys _ = bKeys st from
              congrArg (List.map Prod.fst) (builtFor_of_tables ht)] at hk
            rw [done_of_tables ht]
            exact hpre.2 k hk⟩
      | routine f =>
        cases h
        have ht := tables_member_step env st node (.routine f) name
        exact ⟨by rw [show bKeys _ = bKeys st from
            congrArg (List.map Prod.fst) (builtFor_of_tables ht)]; exact hpre.1,
          fun k hk => by
            rw [show bKeys _ = bKeys st from
              congrArg (List.map Prod.fst) (builtFor_of_tables ht)] at hk
            rw [done_of_tables ht]
            exact hpre.2 k hk⟩
      | other =>
        cases h
        have ht := tables_member_step env st node .other name
        exact ⟨by rw [show bKeys _ = bKeys st from
            congrArg (List.map Prod.fst) (builtFor_of_tables ht)]; exact hpre.1,
          fun k hk => by
            rw [show bKeys _ = bKeys st from
              congrArg (List.map Prod.fst) (builtFor_of_tables ht)] at hk
            rw [done_of_tables ht]
            exact hpre.2 k hk⟩

/-! ## Termination: bounded fuel always suffices on a well-formed graph -/

theorem mem_univ_finset {env : Env} {k : ObjId} :
    k ∈ univ_finset env ↔ (alookup k env.objs).isSome := by
  constructor
  · intro h
    exact alookup_isSome_of_mem_keys (by simpa [univ_finset] using h)
  · intro h
    simpa [univ_finset] using mem_keys_of_alookup_isSome h

theorem unwrap_method_cls {m : Member} {cid : ObjId}
    (h : unwrap_method m = .cls cid) : m = .cls cid := by
  cases m <;> simpa [unwrap_method] using h

theorem wf_cls_mem (env : Env) (hwf : wf_env env = true) {obj : ObjId}
    {name : String} {cid : ObjId}
    (hget : getattr_live env obj name = .ok (.cls cid)) :
    cid ∈ univ_finset env := by
  unfold getattr_live at hget
  rcases hod : alookup obj env.objs with _ | od
  · rw [objDataOf, hod] at hget
    simp [alookup] at hget
  · rw [objDataOf, hod] at hget
    simp only [Option.getD_some] at hget
    rcases ha : alookup name od.attrs with _ | r
    · rw [ha] at hget
      exact absurd hget (by simp)
    · rw [ha] at hget
      simp only at hget
      subst hget
      have hobj := alookup_mem hod
      have hattr := alookup_mem ha
      unfold wf_env at hwf
      rw [Bool.and_eq_true, List.all_eq_true] at hwf
      have h2 := hwf.2 _ hobj
      rw [List.all_eq_true] at h2
      have h3 := h2 _ hattr
      simp only at h3
      exact mem_univ_finset.mpr h3

theorem potentialD_mono (env : Env) {d1 d2 : List (ObjId × Nat)}
    (h : ∀ k, (alookup k d1).isSome → (alookup k d2).isSome) :
    potentialD env d2 ≤ potentialD env d1 := by
  refine Finset.sum_le_sum_of_subset ?_
  intro k hk
  rw [Finset.mem_filter] at hk ⊢
  exact ⟨hk.1, fun hs => hk.2 (h k hs)⟩

theorem potentialD_cons (env : Env) (done : List (ObjId × Nat)) (obj : ObjId)
    (node : Nat) (hu : obj ∈ univ_finset env)
    (hn : alookup obj done = none) :
    potentialD env done
      = (dir_names env obj).length + 4 + potentialD env ((obj, node) :: done) := by
  have hset : (univ_finset env).filter
        (fun k => ¬ (alookup k ((obj, node) :: done)).isSome)
      = ((univ_finset env).filter (fun k => ¬ (alookup k done).isSome)).erase obj := by
    ext k
    rw [Finset.mem_erase, Finset.mem_filter, Finset.mem_filter]
    constructor
    · intro hk
      have hne : k ≠ obj := by
        intro he
        subst he
        rw [alookup_cons] at hk
        simp at hk
      refine ⟨hne, hk.1, ?_⟩
      rw [alookup_cons] at hk
      have : ¬ obj = k := fun he => hne he.symm
      simpa [this] using hk.2
    · intro hk
      refine ⟨hk.2.1, ?_⟩
      rw [alookup_cons]
      have : ¬ obj = k := fun he => hk.1 he.symm
      simpa [this] using hk.2.2
  have hmem : obj ∈ (univ_finset env).filter (fun k => ¬ (alookup k done).isSome) := by
    rw [Finset.mem_filter]
    exact ⟨hu, by simp [hn]⟩
  unfold potentialD
  rw [hset, ← Finset.add_sum_erase _ _ hmem]

theorem potentialD_single_le (env : Env) (done : List (ObjId × Nat)) {obj : ObjId}
    (hu : obj ∈ univ_finset env) (hn : alookup obj done = none) :
    (dir_names env obj).length + 4 ≤ potentialD env done := by
  unfold potentialD
  have hmem : obj ∈ (univ_finset env).filter
      (fun k => ¬ (alookup k done).isSome) := by
    rw [Finset.mem_filter]
    exact ⟨hu, by simp [hn]⟩
  exact Finset.single_le_sum
    (fun i _ => Nat.zero_le ((dir_names env i).length + 4)) hmem

/-- On a well-formed live object graph the walk never runs out of fuel
when given its activation's budget: the only ways a run ends are a
completed state or a propagated live-object exception. -/
theorem build_step_no_fuelOut (env : Env) (hwf : wf_env env = true) :
    ∀ (fuel : Nat) (task : BTask), taskHyp env fuel task →
    build_step env fuel task ≠ .error .fuelOut := by
  intro fuel
  induction fuel with
  | zero =>
    intro task hhyp
    exfalso
    cases task with
    | tObj st node obj => exact absurd hhyp.1 (by omega)
    | tLoop st node obj names =>
      have := hhyp
      simp only [taskHyp] at this
      omega
    | tMem st node obj member name => exact absurd hhyp.1 (by omega)
  | succ fuel ih =>
    intro task hhyp
    cases task with
    | tObj st node obj =>
      simp only [build_step]
      split
      · simp
      · rename_i hmiss
        obtain ⟨h1, h2, h3⟩ := hhyp
        have hu : obj ∈ univ_finset env := by
          rcases h3 with hs | hu

          · rw [hmiss] at hs
            exact absurd hs (by simp)
          · exact hu
        refine ih _ ?_
        show (dir_names env obj).length
          + potentialD env ((obj, node) :: st.done) + 1 ≤ fuel
        have hsplit := potentialD_cons env st.done obj node hu hmiss
        omega
    | tLoop st node obj names =>
      simp only [build_step]
      cases names with
      | nil => simp
      | cons name rest =>
        have hhyp' : rest.length + 1 + potentialD env st.done + 1 ≤ fuel + 1 := by
          simpa [taskHyp] using hhyp
        simp only
        split
        · refine ih _ ?_
          show rest.length
            + potentialD env (attach_dummy_node st node name none).done + 1 ≤ fuel
          rw [done_of_tables (tables_attach_dummy_node st node name none)]
          omega
        · intro hcon
          exact absurd (Except.error.inj hcon) (by simp)
        · rename_i m hm
          have hmemHyp : taskHyp env fuel (.tMem st node obj (unwrap_method m) name) := by
            refine ⟨by omega, by show potentialD env st.done ≤ fuel + 1; omega, ?_⟩
            intro cid hcid
            rw [unwrap_method_cls hcid] at hm
            exact Or.inr (wf_cls_mem env hwf hm)
          split
          · rename_i e hrec
            intro hcon
            have := ih _ hmemHyp
            rw [hrec] at this
            exact this (by rw [Except.error.inj hcon])
          · rename_i st2 hrec
            refine ih _ ?_
            show rest.length + potentialD env st2.done + 1 ≤ fuel
            have hpres := (build_step_inv env fuel _ _ hrec).2
            have hmono : potentialD env st2.done ≤ potentialD env st.done := by
              refine potentialD_mono env ?_
              intro k hs
              rcases ho : alookup k (taskState (.tMem st node obj (unwrap_method m) name)).done
                with _ | v
              · rw [taskState] at ho
                rw [ho] at hs
                exact absurd hs (by simp)
              · rw [hpres k v ho]
                rfl
            omega
    | tMem st node obj member name =>
      obtain ⟨h1, h2, h3⟩ := hhyp
      simp only [build_step]
      cases member with
      | cls cid =>
        simp only
        set p := imported_member env st node (.cls cid) (objDataOf env cid).cmodule name
          with hp
        have hpd : p.1.done = st.done := by
          rw [hp]
          exact done_of_tables (tables_imported_member_fst env st node (.cls cid)
            (objDataOf env cid).cmodule name)
        split
        · simp
        · split
          · simp
          · rename_i hnotfound
            set q := object_build_class env p.1 node cid name with hq
            have hqd : q.1.done = p.1.done := by
              rw [hq]
              exact done_of_tables (tables_object_build_class_fst env p.1 node cid name)
            have hcu : cid ∈ univ_finset env := by
              rcases h3 cid rfl with hs | hu
              · rw [← hpd] at hs
                rw [hnotfound] at hs
                exact absurd hs (by simp)
              · exact hu
            have hobjHyp : taskHyp env fuel (.tObj
                { q.1 with builtFor := q.1.builtFor ++ [(cid, q.2)] } q.2 cid) := by
              have hc4 : ({ q.1 with
                  builtFor := q.1.builtFor ++ [(cid, q.2)] } : BState).done = st.done := by
                show q.1.done = st.done
                rw [hqd, hpd]
              have hcn : alookup cid st.done = none := by
                rw [← hpd]
                exact hnotfound
              have hge := potentialD_single_le env st.done hcu hcn
              refine ⟨by omega, ?_, ?_⟩
              · rw [hc4]
                omega
              · rw [hc4]
                exact Or.inr hcu
            split
            · rename_i e hrec
              intro hcon
              have := ih _ hobjHyp
              rw [hrec] at this
              exact this (by rw [Except.error.inj hcon])
            · simp
      | meth f => simp
      | func f => simp
      | builtin b => simp
      | methdescr dn dd => simp
      | datadescr dn dd => simp
      | constv v => simp
      | routine f => simp
      | other => simp

/-! ## Effect of the attach helpers on the heap -/

theorem attach_local_node_eq (st : BState) (parent child : Nat) (name : String)
    (hc : child < st.heap.length) :
    attach_local_node st parent child name
      = setNode (setNode st child (fun d => { d with nname := some name })) parent
          (fun d => { d with locals := localsAdd d.locals name child }) := by
  unfold attach_local_node add_local_node set_local
  rw [nodeAt_setNode_self st child _ hc]
  rfl

theorem attach_dummy_node_spec (st : BState) (node : Nat) (name : String)
    (obj : Option Member) (h : node < st.heap.length) :
    (attach_dummy_node st node name obj).heap.length = st.heap.length + 1 ∧
    nodeAt (attach_dummy_node st node name obj) st.heap.length
      = { kind := .emptynode, eobj := obj, nname := some name } ∧
    (∀ j, j < st.heap.length → j ≠ node →
      nodeAt (attach_dummy_node st node name obj) j = nodeAt st j) ∧
    nodeAt (attach_dummy_node st node name obj) node
      = { nodeAt st node with
          locals := localsAdd (nodeAt st node).locals name st.heap.length } := by
  have hne : node ≠ st.heap.length := by omega
  unfold attach_dummy_node
  rw [attach_local_node_eq _ _ _ _ (by rw [length_addNode_fst]; simp [addNode_snd])]
  simp only [addNode_snd]
  refine ⟨by rw [length_setNode, length_setNode, length_addNode_fst], ?_, ?_, ?_⟩
  · rw [nodeAt_setNode_ne _ _ _ (by omega : st.heap.length ≠ node),
      nodeAt_setNode_self _ _ _ (by simp only [addNode_snd, length_addNode_fst]; omega),
      nodeAt_addNode_fst_len]
  · intro j hj hjn
    rw [nodeAt_setNode_ne _ _ _ hjn,
      nodeAt_setNode_ne _ _ _ (by omega),
      nodeAt_addNode_fst_lt _ _ hj]
  · rw [nodeAt_setNode_self _ _ _
        (by simp only [addNode_snd, length_setNode, length_addNode_fst]; omega),
      nodeAt_setNode_ne _ _ _ (by omega),
      nodeAt_addNode_fst_lt _ _ h]

theorem attach_import_node_spec (st : BState) (node : Nat)
    (modname membername : String) (h : node < st.heap.length) :
    (attach_import_node st node modname membername).heap.length
      = st.heap.length + 1 ∧
    nodeAt (attach_import_node st node modname membername) st.heap.length
      = { kind := .importfrom, modname := modname,
          importNames := [(membername, none)], nname := some membername } ∧
    (∀ j, j < st.heap.length → j ≠ node →
      nodeAt (attach_import_node st node modname membername) j = nodeAt st j) ∧
    nodeAt (attach_import_node st node modname membername) node
      = { nodeAt st node with
          locals := localsAdd (nodeAt st node).locals membername st.heap.length } := by
  have hne : node ≠ st.heap.length := by omega
  unfold attach_import_node
  rw [attach_local_node_eq _ _ _ _ (by rw [length_addNode_fst]; simp [addNode_snd])]
  simp only [addNode_snd]
  refine ⟨by rw [length_setNode, length_setNode, length_addNode_fst], ?_, ?_, ?_⟩
  · rw [nodeAt_setNode_ne _ _ _ (by omega : st.heap.length ≠ node),
      nodeAt_setNode_self _ _ _ (by simp only [addNode_snd, length_addNode_fst]; omega),
      nodeAt_addNode_fst_len]
  · intro j hj hjn
    rw [nodeAt_setNode_ne _ _ _ hjn,
      nodeAt_setNode_ne _ _ _ (by omega),
      nodeAt_addNode_fst_lt _ _ hj]
  · rw [nodeAt_setNode_self _ _ _
        (by simp only [addNode_snd, length_setNode, length_addNode_fst]; omega),
      nodeAt_setNode_ne _ _ _ (by omega),
      nodeAt_addNode_fst_lt _ _ h]

theorem length_set_local (st : BState) (scope : Nat) (name : String)
    (child : Nat) : (set_local st scope name child).heap.length = st.heap.length := by
  unfold set_local
  rw [length_setNode]

theorem nodeAt_set_local_self (st : BState) (scope : Nat) (name : String)
    (child : Nat) (h : scope < st.heap.length) :
    nodeAt (set_local st scope name child) scope
      = { nodeAt st scope with
          locals := localsAdd (nodeAt st scope).locals name child } := by
  unfold set_local
  rw [nodeAt_setNode_self _ _ _ h]

theorem nodeAt_set_local_ne (st : BState) (scope : Nat) (name : String)
    (child : Nat) {j : Nat} (h : j ≠ scope) :
    nodeAt (set_local st scope name child) j = nodeAt st j := by
  unfold set_local
  rw [nodeAt_setNode_ne _ _ _ h]

/-! ## Claims about the import-or-local decision -/

/-- C4: with a declaring-module name in hand, when its normalization
differs from the module being built, `imported_member` reports foreign
(`true`) and attaches exactly one node under the member's name — a dummy
`EmptyNode` when the registry probe fails, an `ImportFrom` reference when
it succeeds; when the normalization matches, it reports not-foreign
(`false`) and leaves the state untouched. -/
theorem claim_C4 (env : Env) (st : BState) (node : Nat) (member : Member)
    (m name : String) (hnode : node < st.heap.length) :
    (real_name_of m ≠ env.selfModuleName →
      (imported_member env st node member (.val m) name).2 = true ∧
      (probe_ok env m name = false →
        imported_member env st node member (.val m) name
          = (attach_dummy_node st node name (some member), true) ∧
        nodeAt (imported_member env st node member (.val m) name).1 st.heap.length
          = { kind := .emptynode, eobj := some member, nname := some name }) ∧
      (probe_ok env m name = true →
        imported_member env st node member (.val m) name
          = (attach_import_node st node m name, true) ∧
        nodeAt (imported_member env st node member (.val m) name).1 st.heap.length
          = { kind := .importfrom, modname := m, importNames := [(name, none)],
              nname := some name }) ∧
      localsGet (nodeAt (imported_member env st node member (.val m) name).1
          node).locals name
        = localsGet (nodeAt st node).locals name ++ [st.heap.length]) ∧
    (real_name_of m = env.selfModuleName →
      imported_member env st node member (.val m) name = (st, false)) := by
  constructor
  · intro hne
    simp only [imported_member, imported_member_tail]
    rcases hsys : alookup m env.sysModules with _ | exported
    · rw [if_pos hne]
      have hpo : probe_ok env m name = false := by
        simp [probe_ok, hsys]
      obtain ⟨hlen, hnew, hold, hnode'⟩ :=
        attach_dummy_node_spec st node name (some member) hnode
      refine ⟨rfl, fun _ => ⟨rfl, hnew⟩, fun hc => absurd (hpo ▸ hc) (by simp), ?_⟩
      rw [hnode', localsGet_localsAdd_same]
    · rw [if_pos hne]
      by_cases hmem : name ∈ exported
      · have hpo : probe_ok env m name = true := by
          simp [probe_ok, hsys, hmem]
        obtain ⟨hlen, hnew, hold, hnode'⟩ :=
          attach_import_node_spec st node m name hnode
        simp only [hmem, if_true]
        refine ⟨trivial, fun hc => absurd (hpo ▸ hc) (by simp),
          fun _ => ⟨trivial, hnew⟩, ?_⟩
        rw [hnode', localsGet_localsAdd_same]
      · have hpo : probe_ok env m name = false := by
          simp [probe_ok, hsys, hmem]
        obtain ⟨hlen, hnew, hold, hnode'⟩ :=
          attach_dummy_node_spec st node name (some member) hnode
        simp only [hmem, if_false]
        refine ⟨trivial, fun _ => ⟨trivial, hnew⟩,
          fun hc => absurd (hpo ▸ hc) (by simp), ?_⟩
        rw [hnode', localsGet_localsAdd_same]
  · intro heq
    simp only [imported_member, imported_member_tail]
    rw [if_neg (by simp [heq])]

theorem claim_C4_witness :
    (imported_member envC4 stC4 0 .other (.val "os") "f").2 = true ∧
    imported_member envC4 stC4 0 .other (.val "os") "f"
      = (attach_import_node stC4 0 "os" "f", true) ∧
    imported_member envC4 stC4 0 .other (.val "m") "f" = (stC4, false) := by
  refine ⟨((claim_C4 envC4 stC4 0 .other "os" "f" (by decide)).1 (by decide)).1,
    (((claim_C4 envC4 stC4 0 .other "os" "f" (by decide)).1
      (by decide)).2.2.1 (by decide)).1,
    (claim_C4 envC4 stC4 0 .other "m" "f" (by decide)).2 (by decide)⟩

/-- C5: when the member's `__module__` is missing or raises, only the
universally synthesized names `__new__` and `__subclasshook__` fall back
to the builtins module; any other name gets a dummy node and a foreign
report. -/
theorem claim_C5 (env : Env) (st : BState) (node : Nat) (member : Member)
    (mm : ModAttr) (name : String)
    (hmm : mm = ModAttr.missing ∨ mm = ModAttr.raises)
    (hnode : node < st.heap.length) :
    (¬ (name = "__new__" ∨ name = "__subclasshook__") →
      imported_member env st node member mm name
        = (attach_dummy_node st node name (some member), true) ∧
      (imported_member env st node member mm name).2 = true ∧
      nodeAt (imported_member env st node member mm name).1 st.heap.length
        = { kind := .emptynode, eobj := some member, nname := some name }) ∧
    ((name = "__new__" ∨ name = "__subclasshook__") →
      imported_member env st node member mm name
        = imported_member env st node member (.val builtins_module_name) name) := by
  have hred : imported_member env st node member mm name
      = if name = "__new__" ∨ name = "__subclasshook__"
          ∨ (name ∈ builtins_vars ∧ jython) then
        imported_member_tail env st node member builtins_module_name name
      else (attach_dummy_node st node name (some member), true) := by
    rcases hmm with h | h <;> subst h <;> rfl
  constructor
  · intro hnot
    rw [hred]
    have hcond : ¬ (name = "__new__" ∨ name = "__subclasshook__"
        ∨ (name ∈ builtins_vars ∧ jython)) := by
      simp only [builtins_vars, jython]
      simp only [List.not_mem_nil, false_and, or_false]
      exact hnot
    rw [if_neg hcond]
    obtain ⟨hlen, hnew, hold, hnode'⟩ :=
      attach_dummy_node_spec st node name (some member) hnode
    exact ⟨rfl, rfl, hnew⟩
  · intro hyes
    rw [hred, if_pos (by tauto)]
    rfl

/-- A member whose `__module__` raises, probed under a foreign and a
synthesized name. -/
theorem claim_C5_witness :
    imported_member envC4 stC4 0 .other ModAttr.raises "secret"
      = (attach_dummy_node stC4 0 "secret" (some .other), true) ∧
    imported_member envC4 stC4 0 .other ModAttr.raises "__new__"
      = imported_member envC4 stC4 0 .other (.val builtins_module_name) "__new__" := by
  refine ⟨((claim_C5 envC4 stC4 0 .other ModAttr.raises "secret"
      (Or.inr rfl) (by decide)).1 (by decide)).1,
    (claim_C5 envC4 stC4 0 .other ModAttr.raises "__new__"
      (Or.inr rfl) (by decide)).2 (by decide)⟩

/-! ## Effect of class building and the instance-attribute harvest -/

theorem alookup_localsSet_same (ls : List (String × List Nat)) (k : String)
    (v : List Nat) : alookup k (localsSet ls k v) = some v := by
  induction ls with
  | nil => simp [localsSet, alookup]
  | cons p rest ih =>
    obtain ⟨a, b⟩ := p
    simp only [localsSet]
    by_cases hk : a = k
    · simp [hk, alookup]
    · simpa [alookup_cons, hk] using ih

theorem alookup_localsSet_ne (ls : List (String × List Nat)) (k : String)
    (v : List Nat) {k' : String} (h : k' ≠ k) :
    alookup k' (localsSet ls k v) = alookup k' ls := by
  induction ls with
  | nil => simp [localsSet, alookup, Ne.symm h]
  | cons p rest ih =>
    obtain ⟨a, b⟩ := p
    simp only [localsSet]
    by_cases hk : a = k
    · subst hk
      rw [if_pos rfl, alookup_cons, alookup_cons]
      simp [Ne.symm h]
    · rw [if_neg hk, alookup_cons, alookup_cons]
      by_cases hk' : a = k'
      · simp [hk']
      · simp only [hk', if_false]
        exact ih

theorem basesFold_spec (cid : Nat) :
    ∀ (bs : List String) (st : BState), cid < st.heap.length →
    (List.foldl (addBaseName cid) st bs).heap.length = st.heap.length + bs.length ∧
    (∀ j, j < st.heap.length → j ≠ cid →
      nodeAt (List.foldl (addBaseName cid) st bs) j = nodeAt st j) ∧
    ∃ newbs, nodeAt (List.foldl (addBaseName cid) st bs) cid
      = { nodeAt st cid with bases := (nodeAt st cid).bases ++ newbs } := by
  intro bs
  induction bs with
  | nil =>
    intro st hc
    exact ⟨rfl, fun j _ _ => rfl, [], by simp⟩
  | cons b rest ih =>
    intro st hc
    rw [List.foldl_cons]
    have hlen1 : (addBaseName cid st b).heap.length = st.heap.length + 1 := by
      unfold addBaseName
      rw [length_setNode, length_addNode_fst]
    obtain ⟨hlen, hpres, newbs, hcid⟩ := ih (addBaseName cid st b) (by omega)
    have hstep_pres : ∀ j, j < st.heap.length → j ≠ cid →
        nodeAt (addBaseName cid st b) j = nodeAt st j := by
      intro j hj hjc
      unfold addBaseName
      rw [nodeAt_setNode_ne _ _ _ hjc, nodeAt_addNode_fst_lt _ _ hj]
    have hstep_cid : nodeAt (addBaseName cid st b) cid
        = { nodeAt st cid with
            bases := (nodeAt st cid).bases ++ [st.heap.length] } := by
      unfold addBaseName
      rw [nodeAt_setNode_self _ _ _ (by rw [length_addNode_fst]; omega),
        nodeAt_addNode_fst_lt _ _ hc]
      rfl
    refine ⟨by simp only [List.length_cons]; omega, ?_, st.heap.length :: newbs, ?_⟩
    · intro j hj hjc
      rw [hpres j (by omega) hjc, hstep_pres j hj hjc]
    · rw [hcid, hstep_cid]
      simp

theorem build_class_spec (st : BState) (kname : String) (basenames : List String)
    (doc : Option String) :
    (build_class st kname basenames doc).2 = st.heap.length ∧
    (build_class st kname basenames doc).1.heap.length
      = st.heap.length + 1 + basenames.length ∧
    (∀ j, j < st.heap.length →
      nodeAt (build_class st kname basenames doc).1 j = nodeAt st j) ∧
    ∃ bs, nodeAt (build_class st kname basenames doc).1 st.heap.length
      = { kind := .classdef, nname := some kname, doc := doc, bases := bs } := by
  obtain ⟨hlen, hpres, newbs, hcid⟩ := basesFold_spec st.heap.length basenames
    (addNode st { kind := .classdef, nname := some kname, doc := doc }).1
    (by rw [length_addNode_fst]; omega)
  refine ⟨rfl, ?_, ?_, newbs, ?_⟩
  · show (List.foldl (addBaseName st.heap.length)
        (addNode st { kind := .classdef, nname := some kname, doc := doc }).1
        basenames).heap.length = st.heap.length + 1 + basenames.length
    rw [hlen, length_addNode_fst]
  · intro j hj
    show nodeAt (List.foldl (addBaseName st.heap.length)
        (addNode st { kind := .classdef, nname := some kname, doc := doc }).1
        basenames) j = nodeAt st j
    rw [hpres j (by rw [length_addNode_fst]; omega) (by omega),
      nodeAt_addNode_fst_lt _ _ hj]
  · show nodeAt (List.foldl (addBaseName st.heap.length)
        (addNode st { kind := .classdef, nname := some kname, doc := doc }).1
        basenames) st.heap.length
      = { kind := .classdef, nname := some kname, doc := doc, bases := newbs }
    rw [hcid, nodeAt_addNode_fst_len]
    simp

theorem harvest_fold (kid : Nat) :
    ∀ (entries : List (String × Member)) (st : BState), kid < st.heap.length →
    (List.foldl (harvestAttr kid) st entries).heap.length
      = st.heap.length + entries.length ∧
    (∀ j, j < st.heap.length → j ≠ kid →
      nodeAt (List.foldl (harvestAttr kid) st entries) j = nodeAt st j) ∧
    (∃ ia, nodeAt (List.foldl (harvestAttr kid) st entries) kid
      = { nodeAt st kid with instance_attrs := ia }) ∧
    (∀ k, k ∉ entries.map Prod.fst →
      alookup k (nodeAt (List.foldl (harvestAttr kid) st entries)
          kid).instance_attrs
        = alookup k (nodeAt st kid).instance_attrs) ∧
    ((entries.map Prod.fst).Nodup →
      ∀ p ∈ entries, ∃ vid,
        alookup p.1 (nodeAt (List.foldl (harvestAttr kid) st entries)
          kid).instance_attrs = some [vid] ∧
        nodeAt (List.foldl (harvestAttr kid) st entries) vid
          = { kind := .emptynode, eobj := some p.2, parent := some kid,
              lineno := some 1 }) := by
  intro entries
  induction entries with
  | nil =>
    intro st hk
    exact ⟨rfl, fun j _ _ => rfl, ⟨(nodeAt st kid).instance_attrs, by simp⟩,
      fun k _ => rfl, fun _ p hp => absurd hp (by simp)⟩
  | cons e rest ih =>
    intro st hk
    rw [List.foldl_cons]
    have hlen1 : (harvestAttr kid st e).heap.length = st.heap.length + 1 := by
      unfold harvestAttr
      rw [length_setNode, length_addNode_fst]
    obtain ⟨hlen, hpres, ⟨ia, hia⟩, hkeep, hlook⟩ :=
      ih (harvestAttr kid st e) (by omega)
    have hstep_pres : ∀ j, j < st.heap.length → j ≠ kid →
        nodeAt (harvestAttr kid st e) j = nodeAt st j := by
      intro j hj hjc
      unfold harvestAttr
      rw [nodeAt_setNode_ne _ _ _ hjc, nodeAt_addNode_fst_lt _ _ hj]
    have hstep_kid : nodeAt (harvestAttr kid st e) kid
        = { nodeAt st kid with
            instance_attrs := localsSet (nodeAt st kid).instance_attrs e.1
              [st.heap.length] } := by
      unfold harvestAttr
      simp only [addNode_snd]
      rw [nodeAt_setNode_self _ _ _ (by rw [length_addNode_fst]; omega),
        nodeAt_addNode_fst_lt _ _ hk]
    have hstep_new : nodeAt (harvestAttr kid st e) st.heap.length
        = { kind := .emptynode, eobj := some e.2, parent := some kid,
            lineno := some 1 } := by
      unfold harvestAttr
      rw [nodeAt_setNode_ne _ _ _ (by omega : st.heap.length ≠ kid)]
      rw [nodeAt_addNode_fst_len]
    refine ⟨by simp only [List.length_cons]; omega, ?_, ?_, ?_, ?_⟩
    · intro j hj hjc
      rw [hpres j (by omega) hjc, hstep_pres j hj hjc]
    · refine ⟨ia, ?_⟩
      rw [hia, hstep_kid]
    · intro k hknot
      have hk1 : k ∉ rest.map Prod.fst := by
        intro hc
        exact hknot (by simp [hc])
      have hk2 : k ≠ e.1 := by
        intro hc
        exact hknot (by simp [hc])
      rw [hkeep k hk1, hstep_kid]
      show alookup k (localsSet (nodeAt st kid).instance_attrs e.1
        [st.heap.length]) = _
      rw [alookup_localsSet_ne _ _ _ hk2]
    · intro hnd p hp
      rw [List.map_cons, List.nodup_cons] at hnd
      have hnd' : (rest.map Prod.fst).Nodup := hnd.2
      have hhead : e.1 ∉ rest.map Prod.fst := hnd.1
      rcases List.mem_cons.mp hp with hp | hp
      · subst hp
        refine ⟨st.heap.length, ?_, ?_⟩
        · rw [hkeep p.1 hhead, hstep_kid]
          show alookup p.1 (localsSet (nodeAt st kid).instance_attrs p.1
            [st.heap.length]) = _
          rw [alookup_localsSet_same]
        · rw [hpres st.heap.length (by omega) (by omega), hstep_new]
      · obtain ⟨vid, hl, hn⟩ := hlook hnd' p hp
        exact ⟨vid, hl, hn⟩

/-! ## Claim about class building and harvest safety -/

/-- C6: building a class node never fails: whatever the instantiation
trick does, the ClassDef is created, attached under its binding name, and
returned; instance attributes are harvested only when the class is an
`Exception` subclass whose zero-argument instantiation succeeded, each
harvested key becoming an `EmptyNode` placeholder with line number 1, and
any failure (non-exception class, or raising constructor, i.e.
`instDict = none`) leaves the harvested set empty. -/
theorem claim_C6 (st : BState) (node : Nat) (basenames : List String)
    (name localname mname mdoc : Option String) (newstyle isExc : Bool)
    (instDict : Option (List (String × Member)))
    (hnode : node < st.heap.length) :
    (base_class_object_build st node basenames name localname mname mdoc
      newstyle isExc instDict).2 = st.heap.length ∧
    (nodeAt (base_class_object_build st node basenames name localname mname mdoc
        newstyle isExc instDict).1 st.heap.length).kind = .classdef ∧
    (nodeAt (base_class_object_build st node basenames name localname mname mdoc
        newstyle isExc instDict).1 st.heap.length).nname
      = some ((py_or_opt name (py_or_opt mname localname)).getD "") ∧
    (nodeAt (base_class_object_build st node basenames name localname mname mdoc
        newstyle isExc instDict).1 st.heap.length).newstyle = newstyle ∧
    localsGet (nodeAt (base_class_object_build st node basenames name localname
        mname mdoc newstyle isExc instDict).1 node).locals
        ((py_or_opt localname
          (some ((py_or_opt name (py_or_opt mname localname)).getD ""))).getD "")
      = localsGet (nodeAt st node).locals
          ((py_or_opt localname
            (some ((py_or_opt name (py_or_opt mname localname)).getD ""))).getD "")
        ++ [st.heap.length] ∧
    (isExc = false →
      (nodeAt (base_class_object_build st node basenames name localname mname mdoc
        newstyle isExc instDict).1 st.heap.length).instance_attrs = []) ∧
    (instDict = none →
      (nodeAt (base_class_object_build st node basenames name localname mname mdoc
        newstyle isExc instDict).1 st.heap.length).instance_attrs = []) ∧
    (∀ entries, isExc = true → instDict = some entries →
      (entries.map Prod.fst).Nodup →
      ∀ p ∈ entries, ∃ vid,
        alookup p.1 (nodeAt (base_class_object_build st node basenames name
          localname mname mdoc newstyle isExc instDict).1
            st.heap.length).instance_attrs = some [vid] ∧
        nodeAt (base_class_object_build st node basenames name localname mname
          mdoc newstyle isExc instDict).1 vid
          = { kind := .emptynode, eobj := some p.2, parent := some st.heap.length,
              lineno := some 1 }) := by
  set q := build_class st ((py_or_opt name (py_or_opt mname localname)).getD "")
    basenames mdoc with hq
  set st1 := setNode q.1 q.2 (fun d => { d with newstyle := newstyle }) with hst1
  set st2 := add_local_node st1 node q.2 localname with hst2
  obtain ⟨hB2, hBlen, hBpres, bs, hBk⟩ := build_class_spec st
    ((py_or_opt name (py_or_opt mname localname)).getD "") basenames mdoc
  rw [← hq] at hB2 hBlen hBpres hBk
  have hr : base_class_object_build st node basenames name localname mname mdoc
      newstyle isExc instDict
      = (if isExc then
          match instDict with
          | some entries => entries.foldl (harvestAttr q.2) st2
          | none => st2
        else st2, q.2) := rfl
  have h1len : st1.heap.length = st.heap.length + 1 + basenames.length := by
    rw [hst1, length_setNode, hBlen]
  have h1kid : nodeAt st1 q.2
      = { kind := .classdef,
          nname := some ((py_or_opt name (py_or_opt mname localname)).getD ""),
          doc := mdoc, bases := bs, newstyle := newstyle } := by
    rw [hst1, nodeAt_setNode_self _ _ _ (by rw [hB2, hBlen]; omega), hB2, hBk]
  have h1pres : ∀ j, j < st.heap.length → nodeAt st1 j = nodeAt st j := by
    intro j hj
    rw [hst1, nodeAt_setNode_ne _ _ _ (by rw [hB2]; omega), hBpres j hj]
  have hst2' : st2 = set_local st1 node
      ((py_or_opt localname
        (some ((py_or_opt name (py_or_opt mname localname)).getD ""))).getD "")
      q.2 := by
    rw [hst2]
    unfold add_local_node
    rw [h1kid]
  have h2len : st2.heap.length = st1.heap.length := by
    rw [hst2', length_set_local]
  have h2node : nodeAt st2 node = { nodeAt st node with
      locals := localsAdd (nodeAt st node).locals
        ((py_or_opt localname
          (some ((py_or_opt name (py_or_opt mname localname)).getD ""))).getD "")
        q.2 } := by
    rw [hst2', nodeAt_set_local_self _ _ _ _ (by rw [h1len]; omega),
      h1pres node hnode]
  have h2kid : nodeAt st2 q.2
      = { kind := .classdef,
          nname := some ((py_or_opt name (py_or_opt mname localname)).getD ""),
          doc := mdoc, bases := bs, newstyle := newstyle } := by
    rw [hst2', nodeAt_set_local_ne _ _ _ _ (by rw [hB2]; omega), h1kid]
  have hlocals : localsGet (nodeAt st2 node).locals
      ((py_or_opt localname
        (some ((py_or_opt name (py_or_opt mname localname)).getD ""))).getD "")
      = localsGet (nodeAt st node).locals
          ((py_or_opt localname
            (some ((py_or_opt name (py_or_opt mname localname)).getD ""))).getD "")
        ++ [st.heap.length] := by
    rw [h2node]
    show localsGet (localsAdd _ _ _) _ = _
    rw [localsGet_localsAdd_same, hB2]
  rw [hr]
  cases isExc with
  | false =>
    simp only [if_false, Bool.false_eq_true]
    refine ⟨hB2, ?_, ?_, ?_, hlocals, fun _ => ?_, fun _ => ?_, ?_⟩
    · rw [← hB2, h2kid]
    · rw [← hB2, h2kid]
    · rw [← hB2, h2kid]
    · rw [← hB2, h2kid]
    · rw [← hB2, h2kid]
    · intro entries hfalse
      exact absurd hfalse (by simp)
  | true =>
    simp only [if_true]
    cases instDict with
    | none =>
      refine ⟨hB2, ?_, ?_, ?_, hlocals, fun hcon => ?_, fun _ => ?_, ?_⟩
      · rw [← hB2, h2kid]
      · rw [← hB2, h2kid]
      · rw [← hB2, h2kid]
      · exact absurd hcon (by simp)
      · rw [← hB2, h2kid]
      · intro entries _ hcon
        exact absurd hcon (by simp)
    | some entries =>
      obtain ⟨hHlen, hHpres, ⟨ia, hHkid⟩, hHkeep, hHlook⟩ :=
        harvest_fold q.2 entries st2 (by rw [hB2, h2len, h1len]; omega)
      have hkidlt : q.2 < st2.heap.length := by
        rw [hB2, h2len, h1len]
        omega
      have hHnode : nodeAt (entries.foldl (harvestAttr q.2) st2) node
          = nodeAt st2 node := by
        refine hHpres node (by rw [h2len, h1len]; omega) ?_
        rw [hB2]
        omega
      refine ⟨hB2, ?_, ?_, ?_, ?_, fun hcon => ?_, fun hcon => ?_, ?_⟩
      · rw [← hB2, hHkid, h2kid]
      · rw [← hB2, hHkid, h2kid]
      · rw [← hB2, hHkid, h2kid]
      · rw [hHnode]
        exact hlocals
      · exact absurd hcon (by simp)
      · exact absurd hcon (by simp)
      · intro entries' _ hsome hnodup p hp
        have he : entries' = entries := by
          injection hsome.symm
        subst he
        obtain ⟨vid, hl, hn⟩ := hHlook hnodup p hp
        refine ⟨vid, ?_, ?_⟩
        · rw [← hB2, hHkid]
          show alookup p.1 ia = some [vid]
          rw [hHkid] at hl
          exact hl
        · rw [hn, hB2]

/-- A raising zero-argument constructor still yields an attached ClassDef
with no harvested attributes, and a successful instantiation harvests its
instance-dict key as a line-1 placeholder. -/
theorem claim_C6_witness :
    (nodeAt (base_class_object_build stC4 0 ["Exception"] none (some "MyErr")
        (some "MyErr") none true true none).1 1).kind = .classdef ∧
    (nodeAt (base_class_object_build stC4 0 ["Exception"] none (some "MyErr")
        (some "MyErr") none true true none).1 1).instance_attrs = [] ∧
    (∃ vid, alookup "x" (nodeAt (base_class_object_build stC4 0 [] none
        (some "E") (some "E") none true true (some [("x", Member.other)])).1
          1).instance_attrs = some [vid] ∧
      nodeAt (base_class_object_build stC4 0 [] none (some "E") (some "E") none
        true true (some [("x", Member.other)])).1 vid
        = { kind := .emptynode, eobj := some Member.other, parent := some 1,
            lineno := some 1 }) := by
  refine ⟨?_, ?_, ?_⟩
  · exact (claim_C6 stC4 0 ["Exception"] none (some "MyErr") (some "MyErr") none
      true true none (by decide)).2.1
  · exact (claim_C6 stC4 0 ["Exception"] none (some "MyErr") (some "MyErr") none
      true true none (by decide)).2.2.2.2.2.2.1 rfl
  · obtain ⟨vid, h1, h2⟩ := (claim_C6 stC4 0 [] none (some "E") (some "E") none
      true true (some [("x", Member.other)])
      (by decide)).2.2.2.2.2.2.2 [("x", Member.other)] rfl rfl (by decide)
      ("x", Member.other) (by decide)
    exact ⟨vid, h1, h2⟩

/-! ## Effect of function building on the heap -/

theorem argsFold_spec (aid : Nat) :
    ∀ (args : List String) (st : BState) (olds : List Nat),
    aid < st.heap.length → (nodeAt st aid).aargs = some olds →
    (List.foldl (addArgName aid) st args).heap.length
      = st.heap.length + args.length ∧
    (∀ j, j < st.heap.length → j ≠ aid →
      nodeAt (List.foldl (addArgName aid) st args) j = nodeAt st j) ∧
    ∃ ids, nodeAt (List.foldl (addArgName aid) st args) aid
        = { nodeAt st aid with aargs := some (olds ++ ids) } ∧
      (∀ i ∈ ids, st.heap.length ≤ i
        ∧ i < (List.foldl (addArgName aid) st args).heap.length) ∧
      ids.map (fun i => (nodeAt (List.foldl (addArgName aid) st args) i).nname)
        = args.map some := by
  intro args
  induction args with
  | nil =>
    intro st olds ha holds
    refine ⟨rfl, fun j _ _ => rfl, [], ?_, by simp, by simp⟩
    rw [List.append_nil, ← holds]
    rfl
  | cons a rest ih =>
    intro st olds ha holds
    rw [List.foldl_cons]
    have hlen1 : (addArgName aid st a).heap.length = st.heap.length + 1 := by
      unfold addArgName
      rw [length_setNode, length_addNode_fst]
    have hstep_aid : nodeAt (addArgName aid st a) aid
        = { nodeAt st aid with
            aargs := some (olds ++ [st.heap.length]) } := by
      unfold addArgName
      simp only [addNode_snd]
      rw [nodeAt_setNode_self _ _ _ (by rw [length_addNode_fst]; omega),
        nodeAt_addNode_fst_lt _ _ ha, holds]
      rfl
    have hstep_pres : ∀ j, j < st.heap.length → j ≠ aid →
        nodeAt (addArgName aid st a) j = nodeAt st j := by
      intro j hj hjc
      unfold addArgName
      rw [nodeAt_setNode_ne _ _ _ hjc, nodeAt_addNode_fst_lt _ _ hj]
    have hstep_new : nodeAt (addArgName aid st a) st.heap.length
        = { kind := .namenode, nname := some a, parent := some aid } := by
      unfold addArgName
      rw [nodeAt_setNode_ne _ _ _ (by omega : st.heap.length ≠ aid)]
      rw [nodeAt_addNode_fst_len]
    obtain ⟨hlen, hpres, ids, hkid, hbnd, hnames⟩ :=
      ih (addArgName aid st a) (olds ++ [st.heap.length]) (by omega)
        (by rw [hstep_aid])
    refine ⟨by simp only [List.length_cons]; omega, ?_,
      st.heap.length :: ids, ?_, ?_, ?_⟩
    · intro j hj hjc
      rw [hpres j (by omega) hjc, hstep_pres j hj hjc]
    · rw [hkid, hstep_aid]
      simp
    · intro i hi
      rcases List.mem_cons.mp hi with hi | hi
      · subst hi
        constructor
        · omega
        · rw [hlen, hlen1]
          omega
      · obtain ⟨hlo, hhi⟩ := hbnd i hi
        exact ⟨by omega, hhi⟩
    · rw [List.map_cons, List.map_cons, hnames,
        hpres st.heap.length (by omega) (by omega), hstep_new]

theorem defaultsFold_spec (aid : Nat) :
    ∀ (ds : List ConstVal) (st : BState), aid < st.heap.length →
    (List.foldl (addDefault aid) st ds).heap.length
      = st.heap.length + ds.length ∧
    (∀ j, j < st.heap.length → j ≠ aid →
      nodeAt (List.foldl (addDefault aid) st ds) j = nodeAt st j) ∧
    ∃ dids, nodeAt (List.foldl (addDefault aid) st ds) aid
      = { nodeAt st aid with
          adefaults := (nodeAt st aid).adefaults ++ dids } := by
  intro ds
  induction ds with
  | nil =>
    intro st ha
    exact ⟨rfl, fun j _ _ => rfl, [], by simp⟩
  | cons d rest ih =>
    intro st ha
    rw [List.foldl_cons]
    have hlen1 : (addDefault aid st d).heap.length = st.heap.length + 1 := by
      unfold addDefault
      rw [length_setNode, length_addNode_fst]
    obtain ⟨hlen, hpres, dids, hkid⟩ := ih (addDefault aid st d) (by omega)
    have hstep_pres : ∀ j, j < st.heap.length → j ≠ aid →
        nodeAt (addDefault aid st d) j = nodeAt st j := by
      intro j hj hjc
      unfold addDefault
      rw [nodeAt_setNode_ne _ _ _ hjc, nodeAt_addNode_fst_lt _ _ hj]
    have hstep_aid : nodeAt (addDefault aid st d) aid
        = { nodeAt st aid with
            adefaults := (nodeAt st aid).adefaults ++ [st.heap.length] } := by
      unfold addDefault
      simp only [addNode_snd]
      rw [nodeAt_setNode_self _ _ _ (by rw [length_addNode_fst]; omega),
        nodeAt_addNode_fst_lt _ _ ha]
    refine ⟨by simp only [List.length_cons]; omega, ?_,
      st.heap.length :: dids, ?_⟩
    · intro j hj hjc
      rw [hpres j (by omega) hjc, hstep_pres j hj hjc]
    · rw [hkid, hstep_aid]
      simp

/-- The parameter-registration fold of `register_arguments` modifies only
the function node's local-name table. -/
theorem setLocalFold_spec (fid : Nat) :
    ∀ (l : List Nat) (st : BState), fid < st.heap.length →
    (l.foldl (fun acc arg =>
        set_local acc fid ((nodeAt acc arg).nname.getD "") arg) st).heap.length
      = st.heap.length ∧
    (∀ j, j ≠ fid →
      nodeAt (l.foldl (fun acc arg =>
        set_local acc fid ((nodeAt acc arg).nname.getD "") arg) st) j
        = nodeAt st j) ∧
    ∃ lo, nodeAt (l.foldl (fun acc arg =>
        set_local acc fid ((nodeAt acc arg).nname.getD "") arg) st) fid
      = { nodeAt st fid with locals := lo } := by
  intro l
  induction l with
  | nil =>
    intro st hf
    exact ⟨rfl, fun j _ => rfl, (nodeAt st fid).locals, by simp⟩
  | cons x rest ih =>
    intro st hf
    rw [List.foldl_cons]
    obtain ⟨hlen, hpres, lo, hfid⟩ :=
      ih (set_local st fid ((nodeAt st x).nname.getD "") x)
        (by rw [length_set_local]; omega)
    refine ⟨by rw [hlen, length_set_local], ?_, lo, ?_⟩
    · intro j hj
      rw [hpres j hj, nodeAt_set_local_ne _ _ _ _ hj]
    · rw [hfid, nodeAt_set_local_self _ _ _ _ hf]

/-- The body of `build_function`, zeta-reduced. -/
theorem build_function_eq (st : BState) (fname : String) (args : List String)
    (defaults : List ConstVal) (flag : Nat) (doc : Option String) :
    build_function st fname args defaults flag doc
      = ((if args = [] then
            setNode
              (defaults.foldl (addDefault ((addNode st { kind := .functiondef, nname := some fname, doc := doc }).1.heap.length))
                (args.foldl (addArgName ((addNode st { kind := .functiondef, nname := some fname, doc := doc }).1.heap.length))
                  (setNode (addNode (addNode st
                      { kind := .functiondef, nname := some fname, doc := doc }).1
                      { kind := .arguments, aargs := some [] }).1
                    st.heap.length
                    (fun d => { d with argsChild := some ((addNode st { kind := .functiondef, nname := some fname, doc := doc }).1.heap.length) }))))
              ((addNode st { kind := .functiondef, nname := some fname, doc := doc }).1.heap.length)
              (fun d => { d with akwarg := none, avararg := none, parent := some st.heap.length })
          else register_arguments
            (setNode
              (defaults.foldl (addDefault ((addNode st { kind := .functiondef, nname := some fname, doc := doc }).1.heap.length))
                (args.foldl (addArgName ((addNode st { kind := .functiondef, nname := some fname, doc := doc }).1.heap.length))
                  (setNode (addNode (addNode st
                      { kind := .functiondef, nname := some fname, doc := doc }).1
                      { kind := .arguments, aargs := some [] }).1
                    st.heap.length
                    (fun d => { d with argsChild := some ((addNode st { kind := .functiondef, nname := some fname, doc := doc }).1.heap.length) }))))
              ((addNode st { kind := .functiondef, nname := some fname, doc := doc }).1.heap.length)
              (fun d => { d with akwarg := none, avararg := none, parent := some st.heap.length }))
            st.heap.length),
        st.heap.length) := rfl

theorem build_function_spec (st : BState) (fname : String) (args : List String)
    (defaults : List ConstVal) (flag : Nat) (doc : Option String) :
    (build_function st fname args defaults flag doc).2 = st.heap.length ∧
    st.heap.length + 2 ≤ (build_function st fname args defaults flag doc).1.heap.length ∧
    (∀ j, j < st.heap.length →
      nodeAt (build_function st fname args defaults flag doc).1 j = nodeAt st j) ∧
    (nodeAt (build_function st fname args defaults flag doc).1
      st.heap.length).kind = .functiondef ∧
    (nodeAt (build_function st fname args defaults flag doc).1
      st.heap.length).nname = some fname ∧
    (nodeAt (build_function st fname args defaults flag doc).1
      st.heap.length).doc = doc ∧
    (nodeAt (build_function st fname args defaults flag doc).1
      st.heap.length).argsChild = some (st.heap.length + 1) ∧
    (nodeAt (build_function st fname args defaults flag doc).1
      (st.heap.length + 1)).kind = .arguments ∧
    (nodeAt (build_function st fname args defaults flag doc).1
      (st.heap.length + 1)).avararg = none ∧
    (nodeAt (build_function st fname args defaults flag doc).1
      (st.heap.length + 1)).akwarg = none ∧
    (nodeAt (build_function st fname args defaults flag doc).1
      (st.heap.length + 1)).parent = some st.heap.length ∧
    ∃ ids, (nodeAt (build_function st fname args defaults flag doc).1
        (st.heap.length + 1)).aargs = some ids ∧
      (∀ i ∈ ids, st.heap.length + 2 ≤ i) ∧
      ids.map (fun i =>
        (nodeAt (build_function st fname args defaults flag doc).1 i).nname)
        = args.map some := by
  rw [build_function_eq]
  rw [show (addNode st { kind := .functiondef, nname := some fname, doc := doc }).1.heap.length = st.heap.length + 1 from length_addNode_fst st _]
  set stC := setNode (addNode (addNode st
      { kind := .functiondef, nname := some fname, doc := doc }).1
      { kind := .arguments, aargs := some [] }).1
    st.heap.length
    (fun d => { d with argsChild := some (st.heap.length + 1) }) with hC
  have hClen : stC.heap.length = st.heap.length + 2 := by
    rw [hC, length_setNode, length_addNode_fst, length_addNode_fst]
  have hCpres : ∀ j, j < st.heap.length → nodeAt stC j = nodeAt st j := by
    intro j hj
    rw [hC, nodeAt_setNode_ne _ _ _ (by omega),
      nodeAt_addNode_fst_lt _ _ (by rw [length_addNode_fst]; omega),
      nodeAt_addNode_fst_lt _ _ hj]
  have hCfid : nodeAt stC st.heap.length
      = { kind := .functiondef, nname := some fname, doc := doc,
          argsChild := some (st.heap.length + 1) } := by
    rw [hC, nodeAt_setNode_self _ _ _
        (by rw [length_addNode_fst, length_addNode_fst]; omega),
      nodeAt_addNode_fst_lt _ _ (by rw [length_addNode_fst]; omega),
      nodeAt_addNode_fst_len]
  have hCaid : nodeAt stC (st.heap.length + 1)
      = { kind := .arguments, aargs := some [] } := by
    have : (addNode st
        { kind := .functiondef, nname := some fname, doc := doc }).1.heap.length
        = st.heap.length + 1 := by
      rw [length_addNode_fst]
    rw [hC, nodeAt_setNode_ne _ _ _ (by omega), ← this, nodeAt_addNode_fst_len]
  obtain ⟨hDlen, hDpres, ids, hDaid, hDbnd, hDnames⟩ :=
    argsFold_spec (st.heap.length + 1) args stC [] (by omega)
      (by rw [hCaid])
  set stD := args.foldl (addArgName (st.heap.length + 1)) stC with hD
  obtain ⟨hElen, hEpres, dids, hEaid⟩ :=
    defaultsFold_spec (st.heap.length + 1) defaults stD (by omega)
  set stE := defaults.foldl (addDefault (st.heap.length + 1)) stD with hE
  set stF := setNode stE (st.heap.length + 1)
    (fun d => { d with akwarg := none, avararg := none, parent := some st.heap.length }) with hF
  have hFlen : stF.heap.length = stE.heap.length := by
    rw [hF, length_setNode]
  have hFpres : ∀ j, j < st.heap.length → nodeAt stF j = nodeAt st j := by
    intro j hj
    rw [hF, nodeAt_setNode_ne _ _ _ (by omega), hEpres j (by omega) (by omega),
      hDpres j (by omega) (by omega), hCpres j hj]
  have hFfid : nodeAt stF st.heap.length
      = { kind := .functiondef, nname := some fname, doc := doc,
          argsChild := some (st.heap.length + 1) } := by
    rw [hF, nodeAt_setNode_ne _ _ _ (by omega), hEpres _ (by omega) (by omega),
      hDpres _ (by omega) (by omega), hCfid]
  have hFaid : nodeAt stF (st.heap.length + 1)
      = { kind := .arguments, aargs := some ([] ++ ids), adefaults := [] ++ dids,
          akwarg := none, avararg := none, parent := some st.heap.length } := by
    rw [hF, nodeAt_setNode_self _ _ _ (by rw [hElen]; omega), hEaid, hDaid, hCaid]
  have hFnames : ∀ i ∈ ids, nodeAt stF i = nodeAt stD i := by
    intro i hi
    obtain ⟨hlo, hhi⟩ := hDbnd i hi
    rw [hF, nodeAt_setNode_ne _ _ _ (by rw [hClen] at hlo; omega),
      hEpres i hhi (by rw [hClen] at hlo; omega)]
  have hidlow : ∀ i ∈ [] ++ ids, st.heap.length + 2 ≤ i := by
    intro i hi
    obtain ⟨hlo, hhi⟩ := hDbnd i (by simpa using hi)
    rw [hClen] at hlo
    omega
  by_cases hargs : args = []
  · rw [if_pos hargs]
    refine ⟨rfl, ?_, hFpres, ?_, ?_, ?_, ?_, ?_, ?_, ?_, ?_, [] ++ ids, ?_,
      hidlow, ?_⟩
    · rw [hFlen, hElen, hDlen, hClen]
      omega
    · rw [hFfid]
    · rw [hFfid]
    · rw [hFfid]
    · rw [hFfid]
    · rw [hFaid]
    · rw [hFaid]
    · rw [hFaid]
    · rw [hFaid]
    · rw [hFaid]
    · rw [← hDnames]
      refine List.map_congr_left ?_
      intro i hi
      rw [hFnames i hi]
  · rw [if_neg hargs]
    have hreg : register_arguments stF st.heap.length
        = ([] ++ ids).foldl (fun acc arg =>
            set_local acc st.heap.length ((nodeAt acc arg).nname.getD "") arg)
          stF := by
      unfold register_arguments
      simp only [hFfid, hFaid]
      rfl
    rw [hreg]
    obtain ⟨hRlen, hRpres, lo, hRfid⟩ :=
      setLocalFold_spec st.heap.length ([] ++ ids) stF
        (by rw [hFlen, hElen, hDlen, hClen]; omega)
    refine ⟨rfl, ?_, ?_, ?_, ?_, ?_, ?_, ?_, ?_, ?_, ?_, [] ++ ids, ?_,
      hidlow, ?_⟩
    · rw [hRlen, hFlen, hElen, hDlen, hClen]
      omega
    · intro j hj
      rw [hRpres j (by omega), hFpres j hj]
    · rw [hRfid, hFfid]
    · rw [hRfid, hFfid]
    · rw [hRfid, hFfid]
    · rw [hRfid, hFfid]
    · rw [hRpres _ (by omega), hFaid]
    · rw [hRpres _ (by omega), hFaid]
    · rw [hRpres _ (by omega), hFaid]
    · rw [hRpres _ (by omega), hFaid]
    · rw [hRpres _ (by omega), hFaid]
    · rw [← hDnames]
      refine List.map_congr_left ?_
      intro i hi
      obtain ⟨hlo, hhi⟩ := hDbnd i hi
      rw [hRpres i (by rw [hClen] at hlo; omega), hFnames i hi]

theorem object_build_methoddescriptor_spec (st : BState) (node : Nat)
    (mname mdoc : Option String) (localname : String)
    (hnode : node < st.heap.length) (hln : localname ≠ "") :
    (nodeAt (object_build_methoddescriptor st node mname mdoc localname)
      st.heap.length).kind = .functiondef ∧
    (nodeAt (object_build_methoddescriptor st node mname mdoc localname)
      st.heap.length).nname = some (py_or mname localname) ∧
    (nodeAt (object_build_methoddescriptor st node mname mdoc localname)
      (st.heap.length + 1)).kind = .arguments ∧
    (nodeAt (object_build_methoddescriptor st node mname mdoc localname)
      (st.heap.length + 1)).aargs = none ∧
    localsGet (nodeAt (object_build_methoddescriptor st node mname mdoc
        localname) node).locals localname
      = localsGet (nodeAt st node).locals localname ++ [st.heap.length] := by
  obtain ⟨h2, hbig, hpres, hkind, hnameF, hdoc, hchild, hakind, hav, hakw, hpar,
    ids, haargs, hbnd, hnames⟩ :=
    build_function_spec st (py_or mname localname) [] [] 0 mdoc
  have hpo : ∀ y, py_or_opt (some localname) y = some localname := by
    intro y
    simp [py_or_opt, hln]
  have hres : object_build_methoddescriptor st node mname mdoc localname
      = set_local (setNode
          (build_function st (py_or mname localname) [] [] 0 mdoc).1
          (st.heap.length + 1) (fun d => { d with aargs := none }))
        node localname st.heap.length := by
    unfold object_build_methoddescriptor add_local_node
    simp only [h2, hchild, hpo]
    rfl
  rw [hres]
  have hlen1 : (setNode (build_function st (py_or mname localname) [] [] 0
      mdoc).1 (st.heap.length + 1)
      (fun d => { d with aargs := none })).heap.length
      = (build_function st (py_or mname localname) [] [] 0 mdoc).1.heap.length :=
    length_setNode _ _ _
  refine ⟨?_, ?_, ?_, ?_, ?_⟩
  · rw [nodeAt_set_local_ne _ _ _ _ (by omega : st.heap.length ≠ node),
      nodeAt_setNode_ne _ _ _ (by omega), hkind]
  · rw [nodeAt_set_local_ne _ _ _ _ (by omega : st.heap.length ≠ node),
      nodeAt_setNode_ne _ _ _ (by omega), hnameF]
  · rw [nodeAt_set_local_ne _ _ _ _ (by omega : st.heap.length + 1 ≠ node),
      nodeAt_setNode_self _ _ _ (by omega), hakind]
  · rw [nodeAt_set_local_ne _ _ _ _ (by omega : st.heap.length + 1 ≠ node),
      nodeAt_setNode_self _ _ _ (by omega)]
  · rw [nodeAt_set_local_self _ _ _ _ (by rw [hlen1]; omega),
      nodeAt_setNode_ne _ _ _ (by omega), hpres node hnode,
      localsGet_localsAdd_same]

theorem object_build_function_spec (st : BState) (node : Nat) (f : FuncData)
    (localname : String) (hnode : node < st.heap.length) (hln : localname ≠ "") :
    (nodeAt (object_build_function st node f localname)
      st.heap.length).kind = .functiondef ∧
    (nodeAt (object_build_function st node f localname)
      st.heap.length).nname = some (py_or f.fname localname) ∧
    (nodeAt (object_build_function st node f localname)
      (st.heap.length + 1)).kind = .arguments ∧
    (nodeAt (object_build_function st node f localname)
      (st.heap.length + 1)).avararg = none ∧
    (nodeAt (object_build_function st node f localname)
      (st.heap.length + 1)).akwarg = none ∧
    (∃ ids, (nodeAt (object_build_function st node f localname)
        (st.heap.length + 1)).aargs = some ids ∧
      ids.map (fun i =>
        (nodeAt (object_build_function st node f localname) i).nname)
        = (f.argNames
            ++ (match f.varargName with | some v => [v] | none => [])
            ++ (match f.varkwName with | some v => [v] | none => [])).map some) ∧
    localsGet (nodeAt (object_build_function st node f localname) node).locals
        localname
      = localsGet (nodeAt st node).locals localname ++ [st.heap.length] := by
  obtain ⟨h2, hbig, hpres, hkind, hnameF, hdoc, hchild, hakind, hav, hakw, hpar,
    ids, haargs, hbnd, hnames⟩ :=
    build_function_spec st (py_or f.fname localname)
      (f.argNames
        ++ (match f.varargName with | some v => [v] | none => [])
        ++ (match f.varkwName with | some v => [v] | none => []))
      f.defaults ((f.code.map (fun c => c.co_flags)).getD 0) f.fdoc
  have hpo : ∀ y, py_or_opt (some localname) y = some localname := by
    intro y
    simp [py_or_opt, hln]
  have hres : object_build_function st node f localname
      = set_local (build_function st (py_or f.fname localname)
          (f.argNames
            ++ (match f.varargName with | some v => [v] | none => [])
            ++ (match f.varkwName with | some v => [v] | none => []))
          f.defaults ((f.code.map (fun c => c.co_flags)).getD 0) f.fdoc).1
        node localname st.heap.length := by
    unfold object_build_function add_local_node
    simp only [hpo]
    rfl
  rw [hres]
  refine ⟨?_, ?_, ?_, ?_, ?_, ⟨ids, ?_, ?_⟩, ?_⟩
  · rw [nodeAt_set_local_ne _ _ _ _ (by omega : st.heap.length ≠ node), hkind]
  · rw [nodeAt_set_local_ne _ _ _ _ (by omega : st.heap.length ≠ node), hnameF]
  · rw [nodeAt_set_local_ne _ _ _ _ (by omega : st.heap.length + 1 ≠ node), hakind]
  · rw [nodeAt_set_local_ne _ _ _ _ (by omega : st.heap.length + 1 ≠ node), hav]
  · rw [nodeAt_set_local_ne _ _ _ _ (by omega : st.heap.length + 1 ≠ node), hakw]
  · rw [nodeAt_set_local_ne _ _ _ _ (by omega : st.heap.length + 1 ≠ node), haargs]
  · rw [← hnames]
    refine List.map_congr_left ?_
    intro i hi
    have := hbnd i hi
    rw [nodeAt_set_local_ne _ _ _ _ (by omega)]
  · rw [nodeAt_set_local_self _ _ _ _ (by omega), hpres node hnode,
      localsGet_localsAdd_same]

/-! ## Claims about function classification and reflection -/

/-- C3: `_build_from_function` treats a function as foreign — attaching a
dummy node — exactly when its code object's file differs from the live
module's file; a function with no code object at all goes down the
method-descriptor path instead, yielding a FunctionDef whose Arguments
node records the argument list as unknown (`none`), which is distinct
from the empty argument list (`some []`). -/
theorem claim_C3 (env : Env) (st : BState) (node : Nat) (name : String)
    (member : Member) (f : FuncData) (hnode : node < st.heap.length)
    (hname : name ≠ "") :
    (f.code = none →
      build_from_function env st node name member f
        = object_build_methoddescriptor st node f.fname f.fdoc name ∧
      (nodeAt (build_from_function env st node name member f)
        st.heap.length).kind = .functiondef ∧
      (nodeAt (build_from_function env st node name member f)
        (st.heap.length + 1)).kind = .arguments ∧
      (nodeAt (build_from_function env st node name member f)
        (st.heap.length + 1)).aargs = none ∧
      (none : Option (List Nat)) ≠ some []) ∧
    (∀ c, f.code = some c →
      ((nodeAt (build_from_function env st node name member f)
          st.heap.length).kind = .emptynode
        ↔ (some c.co_filename : Option String) ≠ env.selfModuleFile) ∧
      ((some c.co_filename : Option String) ≠ env.selfModuleFile →
        build_from_function env st node name member f
          = attach_dummy_node st node name (some member)) ∧
      ((some c.co_filename : Option String) = env.selfModuleFile →
        build_from_function env st node name member f
          = object_build_function st node f name)) := by
  constructor
  · intro hc
    have hres : build_from_function env st node name member f
        = object_build_methoddescriptor st node f.fname f.fdoc name := by
      unfold build_from_function
      rw [hc]
      rfl
    obtain ⟨hk, hn, hak, haargs, hl⟩ :=
      object_build_methoddescriptor_spec st node f.fname f.fdoc name hnode hname
    rw [hres]
    exact ⟨rfl, hk, hak, haargs, by simp⟩
  · intro c hc
    by_cases hfile : (some c.co_filename : Option String) = env.selfModuleFile
    · have hres : build_from_function env st node name member f
          = object_build_function st node f name := by
        unfold build_from_function
        rw [hc]
        simp only [Option.map_some']
        rw [if_neg (by simp [hfile])]
      obtain ⟨hk, _, _, _, _, _, _⟩ :=
        object_build_function_spec st node f name hnode hname
      rw [hres]
      refine ⟨?_, fun hcon => absurd hfile hcon, fun _ => rfl⟩
      rw [hk]
      simp [hfile]
    · have hres : build_from_function env st node name member f
          = attach_dummy_node st node name (some member) := by
        unfold build_from_function
        rw [hc]
        simp only [Option.map_some']
        rw [if_pos hfile]
      obtain ⟨hlen, hnew, hold, hnd⟩ :=
        attach_dummy_node_spec st node name (some member) hnode
      rw [hres]
      refine ⟨?_, fun _ => rfl, fun hcon => absurd hcon hfile⟩
      rw [hnew]
      simp [hfile]

/-- A code-less live function (the Jython case) and two functions with
code objects, one foreign and one local. -/
theorem claim_C3_witness :
    (nodeAt (build_from_function envC4 stC4 0 "g" .other
        { fname := some "g" }) 2).aargs = none ∧
    build_from_function envC4 stC4 0 "g" .other
        { fname := some "g", code := some { co_filename := "other.py", co_flags := 0 } }
      = attach_dummy_node stC4 0 "g" (some .other) ∧
    build_from_function { envC4 with selfModuleFile := some "m.py" } stC4 0 "g"
        .other
        { fname := some "g", code := some { co_filename := "m.py", co_flags := 0 } }
      = object_build_function stC4 0
        { fname := some "g", code := some { co_filename := "m.py", co_flags := 0 } } "g" := by
  refine ⟨?_, ?_, ?_⟩
  · exact ((claim_C3 envC4 stC4 0 "g" .other { fname := some "g" }
      (by decide) (by decide)).1 rfl).2.2.2.1
  · exact ((claim_C3 envC4 stC4 0 "g" .other
      { fname := some "g", code := some { co_filename := "other.py", co_flags := 0 } }
      (by decide) (by decide)).2 { co_filename := "other.py", co_flags := 0 }
      rfl).2.1 (by decide)
  · exact ((claim_C3 { envC4 with selfModuleFile := some "m.py" } stC4 0 "g"
      .other { fname := some "g", code := some { co_filename := "m.py", co_flags := 0 } }
      (by decide) (by decide)).2 { co_filename := "m.py", co_flags := 0 }
      rfl).2.2 (by decide)

/-- C9: reflecting a live function appends the catch-all positional and
keyword parameter names to the ordinary parameter list, and the resulting
Arguments node's dedicated `vararg` and `kwarg` fields are always `None`:
the built tree never represents catch-all parameters as distinct from
ordinary positional parameters. -/
theorem claim_C9 (st : BState) (node : Nat) (f : FuncData) (localname : String)
    (hnode : node < st.heap.length) (hln : localname ≠ "") :
    (nodeAt (object_build_function st node f localname)
      (st.heap.length + 1)).avararg = none ∧
    (nodeAt (object_build_function st node f localname)
      (st.heap.length + 1)).akwarg = none ∧
    (∃ ids, (nodeAt (object_build_function st node f localname)
        (st.heap.length + 1)).aargs = some ids ∧
      ids.map (fun i =>
        (nodeAt (object_build_function st node f localname) i).nname)
        = (f.argNames
            ++ (match f.varargName with | some v => [v] | none => [])
            ++ (match f.varkwName with | some v => [v] | none => [])).map some) := by
  obtain ⟨_, _, _, hav, hakw, hids, _⟩ :=
    object_build_function_spec st node f localname hnode hln
  exact ⟨hav, hakw, hids⟩

/-- A function `def h(a, b=1, *args, **kwargs)` reflected into a node
whose Arguments list reads `a, b, args, kwargs` with empty catch-all
fields. -/
theorem claim_C9_witness :
    (nodeAt (object_build_function stC4 0
      { fname := some "h", argNames := ["a", "b"], varargName := some "args",
        varkwName := some "kwargs",
        defaults := [{ ctype := .intType, payload := 1 }] } "h") 2).avararg
      = none ∧
    (nodeAt (object_build_function stC4 0
      { fname := some "h", argNames := ["a", "b"], varargName := some "args",
        varkwName := some "kwargs",
        defaults := [{ ctype := .intType, payload := 1 }] } "h") 2).akwarg
      = none ∧
    (∃ ids, (nodeAt (object_build_function stC4 0
        { fname := some "h", argNames := ["a", "b"], varargName := some "args",
          varkwName := some "kwargs",
          defaults := [{ ctype := .intType, payload := 1 }] } "h") 2).aargs
        = some ids ∧
      ids.map (fun i => (nodeAt (object_build_function stC4 0
        { fname := some "h", argNames := ["a", "b"], varargName := some "args",
          varkwName := some "kwargs",
          defaults := [{ ctype := .intType, payload := 1 }] } "h") i).nname)
        = (["a", "b"]
            ++ (match some "args" with | some v => [v] | none => [])
            ++ (match some "kwargs" with | some v => [v] | none => [])).map some) :=
  claim_C9 stC4 0
    { fname := some "h", argNames := ["a", "b"], varargName := some "args",
      varkwName := some "kwargs",
      defaults := [{ ctype := .intType, payload := 1 }] } "h"
    (by decide) (by decide)

/-! ## Claims about the attribute walk -/

/-- C2 counterexample: fetching `bad` raises a non-`AttributeError`
exception, and the whole build aborts with that exception instead of
attaching a dummy node and continuing — refuting the claim that no
attribute-fetch failure ever propagates out of the walk. -/
theorem claim_C2_counterexample :
    getattr_live envC2 0 "bad" = .otherError ∧
    inspect_build envC2 6 {} none none = .error .pyExc := by
  constructor
  · decide
  · decide

/-- C2 (amended): a fetch that raises `AttributeError` — the exception
the walk's `except` clause names — attaches an `EmptyNode` with no
underlying value under that name and continues with the remaining names;
any other exception propagates out of the walk (see the counterexample). -/
theorem claim_C2_amended (env : Env) (fuel : Nat) (st : BState) (node : Nat)
    (obj : ObjId) (name : String) (rest : List String)
    (hnode : node < st.heap.length)
    (hattr : getattr_live env obj name = .attrError) :
    object_build_loop env (fuel + 1) st node obj (name :: rest)
      = object_build_loop env fuel (attach_dummy_node st node name none)
          node obj rest ∧
    nodeAt (attach_dummy_node st node name none) st.heap.length
      = { kind := .emptynode, eobj := none, nname := some name } ∧
    has_underlying_object
      (nodeAt (attach_dummy_node st node name none) st.heap.length) = false ∧
    localsGet (nodeAt (attach_dummy_node st node name none) node).locals name
      = localsGet (nodeAt st node).locals name ++ [st.heap.length] := by
  obtain ⟨hlen, hnew, hold, hnd⟩ := attach_dummy_node_spec st node name none hnode
  refine ⟨?_, hnew, ?_, ?_⟩
  · simp only [object_build_loop, build_step, hattr]
  · rw [hnew]
    rfl
  · rw [hnd, localsGet_localsAdd_same]

/-- A dummy is attached for the raising name `ghost` and the walk goes on. -/
theorem claim_C2_amended_witness :
    object_build_loop envC4 3 stC4 0 0 ["ghost", "also"]
      = object_build_loop envC4 2 (attach_dummy_node stC4 0 "ghost" none)
          0 0 ["also"] ∧
    has_underlying_object
      (nodeAt (attach_dummy_node stC4 0 "ghost" none) 1) = false := by
  refine ⟨(claim_C2_amended envC4 2 stC4 0 0 "ghost" ["also"] (by decide)
      (by decide)).1,
    (claim_C2_amended envC4 2 stC4 0 0 "ghost" ["also"] (by decide)
      (by decide)).2.2.1⟩

theorem length_class_parent_fix (env : Env) (s : BState) (name : String)
    (cn : Nat) : (class_parent_fix env s name cn).heap.length = s.heap.length := by
  unfold class_parent_fix
  split
  · rw [length_setNode]
  · rfl

theorem locals_class_parent_fix (env : Env) (s : BState) (name : String)
    (cn : Nat) (h : cn < s.heap.length) (j : Nat) :
    (nodeAt (class_parent_fix env s name cn) j).locals = (nodeAt s j).locals := by
  unfold class_parent_fix
  split
  · by_cases hj : j = cn
    · subst hj
      rw [nodeAt_setNode_self _ _ _ h]
    · rw [nodeAt_setNode_ne _ _ _ hj]
  · rfl

theorem parent_set_local (s : BState) (sc : Nat) (n : String) (c : Nat)
    (h : sc < s.heap.length) (j : Nat) :
    (nodeAt (set_local s sc n c) j).parent = (nodeAt s j).parent := by
  by_cases hj : j = sc
  · subst hj
    rw [nodeAt_set_local_self _ _ _ _ h]
  · rw [nodeAt_set_local_ne _ _ _ _ hj]

/-- C7: a class member already in the memo table is bound under the new
name without constructing any node (the heap does not grow), without
re-binding when the node is already bound under that name, and — when the
name is `__class__` and the found node is parentless — the node is
parented under the module's memo entry. -/
theorem claim_C7 (env : Env) (fuel : Nat) (st : BState) (node obj cid cn : Nat)
    (name : String) (hnode : node < st.heap.length)
    (hcn : cn < st.heap.length) (hname : name ≠ "")
    (hmemo : alookup cid st.done = some cn)
    (himp : imported_member env st node (.cls cid)
      (objDataOf env cid).cmodule name = (st, false)) :
    ∃ st', object_build_member env (fuel + 1) st node obj (.cls cid) name
        = .ok st' ∧
      st'.heap.length = st.heap.length ∧
      cn ∈ localsGet (nodeAt st' node).locals name ∧
      (cn ∈ localsGet (nodeAt st node).locals name →
        ∀ j, (nodeAt st' j).locals = (nodeAt st j).locals) ∧
      (name = "__class__" → (nodeAt st cn).parent = none →
        (nodeAt st' cn).parent = alookup env.selfModuleId st.done) := by
  have hadd : add_local_node st node cn (some name) = set_local st node name cn := by
    unfold add_local_node
    have : (py_or_opt (some name) (nodeAt st cn).nname).getD "" = name := by
      simp [py_or_opt, hname]
    rw [this]
  refine ⟨class_parent_fix env
    (if cn ∈ localsGet (nodeAt st node).locals name then st
     else add_local_node st node cn (some name)) name cn, ?_, ?_, ?_, ?_, ?_⟩
  · simp only [object_build_member, build_step, himp, hmemo]
    rfl
  · rw [length_class_parent_fix]
    split
    · rfl
    · rw [hadd, length_set_local]
  · by_cases hin : cn ∈ localsGet (nodeAt st node).locals name
    · rw [if_pos hin, locals_class_parent_fix _ _ _ _ hcn]
      exact hin
    · rw [if_neg hin, locals_class_parent_fix _ _ _ _
        (by rw [hadd, length_set_local]; omega), hadd,
        nodeAt_set_local_self _ _ _ _ hnode]
      show cn ∈ localsGet (localsAdd _ _ _) _
      rw [localsGet_localsAdd_same]
      simp
  · intro hin j
    rw [if_pos hin, locals_class_parent_fix _ _ _ _ hcn]
  · intro hcl hpar
    have hst3par : ∀ j, (nodeAt (if cn ∈ localsGet (nodeAt st node).locals name
        then st else add_local_node st node cn (some name)) j).parent
        = (nodeAt st j).parent := by
      intro j
      split
      · rfl
      · rw [hadd, parent_set_local _ _ _ _ hnode]
    have hst3done : (if cn ∈ localsGet (nodeAt st node).locals name
        then st else add_local_node st node cn (some name)).done = st.done := by
      split
      · rfl
      · rfl
    have hst3len : (if cn ∈ localsGet (nodeAt st node).locals name
        then st else add_local_node st node cn (some name)).heap.length
        = st.heap.length := by
      split
      · rfl
      · rw [hadd, length_set_local]
    unfold class_parent_fix
    rw [if_pos (by rw [hst3par cn, hpar]; exact ⟨hcl, rfl⟩),
      nodeAt_setNode_self _ _ _ (by rw [hst3len]; omega), hst3done]

/-- A memoized class rebound under `__class__` reuses node 1 and anchors
it under the module node 0. -/
theorem claim_C7_witness :
    ∃ st', object_build_member envCyc 3
        { heap := stC4.heap ++ [{ kind := .classdef, nname := some "A" }],
          done := [(1, 1), (0, 0)] } 0 0 (.cls 1) "__class__" = .ok st' ∧
      st'.heap.length = 2 ∧
      1 ∈ localsGet (nodeAt st' 0).locals "__class__" ∧
      (nodeAt st' 1).parent = some 0 := by
  obtain ⟨st', hok, hlen, hmem, _, hpar⟩ := claim_C7 envCyc 2
    { heap := stC4.heap ++ [{ kind := .classdef, nname := some "A" }],
      done := [(1, 1), (0, 0)] } 0 0 1 1 "__class__"
    (by decide) (by decide) (by decide) (by decide) (by decide)
  exact ⟨st', hok, hlen, hmem, by rw [hpar rfl (by decide)]; decide⟩

/-! ## C10: cache registration and memo reset in `inspect_build` -/

/-- Claim C10: every top-level `inspect_build` invocation resets the memo
table before enumerating any attribute of the live module: the prepared
state it hands to the walk has an empty memo table, and the whole result
is independent of whatever memo table the builder carried into the call,
so memoized nodes never carry over between two top-level builds.  The
newly created Module node is registered in the global module cache under
the module's name already in the prepared state, the walk itself never
writes the cache — so the module's node is visible in the cache while its
own attribute surface is still being walked — and on success the module
node is still bound to its name in the final cache. -/
theorem claim_C10 (env : Env) (fuel : Nat) (st : BState)
    (modname path : Option String) :
    (∀ d d', inspect_build env fuel { st with done := d } modname path
      = inspect_build env fuel { st with done := d' } modname path) ∧
    (inspect_build_pre env st modname path).1.done = [] ∧
    alookup (modname.getD env.selfModuleName)
        (inspect_build_pre env st modname path).1.cache
      = some (inspect_build_pre env st modname path).2 ∧
    inspect_build env fuel st modname path
      = (match object_build env fuel (inspect_build_pre env st modname path).1
            (inspect_build_pre env st modname path).2 env.selfModuleId with
         | .error e => .error e
         | .ok st6 => .ok (st6, (inspect_build_pre env st modname path).2)) ∧
    (forall s n st2, object_build env fuel s n env.selfModuleId = .ok st2 →
      st2.cache = s.cache) ∧
    (∀ st' nid, inspect_build env fuel st modname path = .ok (st', nid) →
      alookup (modname.getD env.selfModuleName) st'.cache = some nid) := by
  have hcache : alookup (modname.getD env.selfModuleName)
      (inspect_build_pre env st modname path).1.cache
      = some (inspect_build_pre env st modname path).2 := by
    show alookup (modname.getD env.selfModuleName)
      ((modname.getD env.selfModuleName,
        (inspect_build_pre env st modname path).2) :: _) = _
    rw [alookup_cons, if_pos rfl]
  refine ⟨fun d d' => rfl, rfl, hcache, rfl, ?_, ?_⟩
  · intro s n st2 h
    exact (build_step_inv env fuel (.tObj s n env.selfModuleId) st2 h).1
  · intro st' nid h
    simp only [inspect_build] at h
    cases hob : object_build env fuel (inspect_build_pre env st modname path).1
        (inspect_build_pre env st modname path).2 env.selfModuleId with
    | error e => simp [hob] at h
    | ok st6 =>
      simp only [hob, Except.ok.injEq, Prod.mk.injEq] at h
      obtain ⟨hs, hn⟩ := h
      subst hs
      subst hn
      have hc := (build_step_inv env fuel
        (.tObj (inspect_build_pre env st modname path).1
          (inspect_build_pre env st modname path).2 env.selfModuleId) st6 hob).1
      rw [hc]
      exact hcache

/-- The cache facts of C10 on a concrete build: the result does not
depend on the incoming memo table, and the successful build binds the
module name to the module node in the final cache. -/
theorem claim_C10_witness :
    (inspect_build envCyc 12 { done := [(42, 7)] } none none
      = inspect_build envCyc 12 ({ } : BState) none none) ∧
    ∃ r, inspect_build envCyc 12 ({ } : BState) none none = .ok r ∧
      alookup "m" r.1.cache = some r.2 := by
  constructor
  · exact (claim_C10 envCyc 12 ({ } : BState) none none).1 [(42, 7)] []
  · cases hres : inspect_build envCyc 12 ({ } : BState) none none with
    | error e =>
      have hok : (inspect_build envCyc 12 ({ } : BState) none none).isOk = true := by
        decide
      rw [hres] at hok
      simp [Except.isOk, Except.toBool] at hok
    | ok r =>
      refine ⟨r, rfl, ?_⟩
      exact (claim_C10 envCyc 12 ({ } : BState) none none).2.2.2.2.2 r.1 r.2
        (by rw [hres])

/-! ## C8: bootstrap proxy registration -/

/-- One step of the bootstrap loop on a type that is neither `NoneType`
nor `NotImplementedType`: the proxy is fetched from the built-in module's
local-name table by the type's name and registered. -/
theorem bootstrap_step_getattr (bib : Nat) (t : PyType) (rest : List PyType)
    (stX : BState) (acc : ConstProxies) (pid : Nat)
    (hne1 : t ≠ .noneType) (hne2 : t ≠ .notImplType)
    (h : module_getattr_first stX bib (type_name t) = some pid) :
    bootstrap_loop bib (t :: rest) stX acc
      = bootstrap_loop bib rest stX (register_proxy acc t pid) := by
  rw [bootstrap_loop, if_neg hne1, if_neg hne2, h]
  rfl

/-- The `NoneType` step of the bootstrap loop: a fresh standalone proxy
ClassDef is synthesized and parented under the built-in module. -/
theorem bootstrap_step_none (bib : Nat) (rest : List PyType) (stX : BState)
    (acc : ConstProxies) :
    bootstrap_loop bib (PyType.noneType :: rest) stX acc
      = bootstrap_loop bib rest
          (setNode (build_class stX "NoneType" [] none).1
            (build_class stX "NoneType" [] none).2
            (fun d => { d with parent := some bib }))
          (register_proxy acc .noneType (build_class stX "NoneType" [] none).2) :=
  rfl

/-- The `NotImplementedType` step of the bootstrap loop: a fresh
standalone proxy ClassDef is synthesized and parented under the built-in
module. -/
theorem bootstrap_step_notimpl (bib : Nat) (rest : List PyType) (stX : BState)
    (acc : ConstProxies) :
    bootstrap_loop bib (PyType.notImplType :: rest) stX acc
      = bootstrap_loop bib rest
          (setNode (build_class stX "NotImplementedType" [] none).1
            (build_class stX "NotImplementedType" [] none).2
            (fun d => { d with parent := some bib }))
          (register_proxy acc .notImplType
            (build_class stX "NotImplementedType" [] none).2) :=
  rfl

/-- The scalar tail of the bootstrap loop fetches every remaining proxy
from the built-in module's local-name table and appends it to the
constant-proxy table, leaving the heap untouched. -/
theorem bootstrap_scalars (bib : Nat) (stX : BState) (acc : ConstProxies)
    (p7 p8 p9 p10 p11 p12 : Nat)
    (h7 : module_getattr_first stX bib "bool" = some p7)
    (h8 : module_getattr_first stX bib "int" = some p8)
    (h9 : module_getattr_first stX bib "float" = some p9)
    (h10 : module_getattr_first stX bib "complex" = some p10)
    (h11 : module_getattr_first stX bib "str" = some p11)
    (h12 : module_getattr_first stX bib "bytes" = some p12) :
    bootstrap_loop bib [.boolType, .intType, .floatType, .complexType,
        .strType, .bytesType] stX acc
      = some (stX, { acc with table := acc.table
          ++ [(.boolType, p7), (.intType, p8), (.floatType, p9),
              (.complexType, p10), (.strType, p11), (.bytesType, p12)] }) := by
  rw [bootstrap_step_getattr _ _ _ _ _ _ (by decide) (by decide) h7,
    bootstrap_step_getattr _ _ _ _ _ _ (by decide) (by decide) h8,
    bootstrap_step_getattr _ _ _ _ _ _ (by decide) (by decide) h9,
    bootstrap_step_getattr _ _ _ _ _ _ (by decide) (by decide) h10,
    bootstrap_step_getattr _ _ _ _ _ _ (by decide) (by decide) h11,
    bootstrap_step_getattr _ _ _ _ _ _ (by decide) (by decide) h12]
  simp [bootstrap_loop, register_proxy, List.append_assoc]

/-- Synthesizing one fresh parented proxy class does not change what the
built-in module's local-name table yields: the new node is appended past
every existing node and only the new node is mutated. -/
theorem mgf_fresh (stX : BState) (cn : String) (bib : Nat) (name : String)
    (hbib : bib < stX.heap.length) :
    module_getattr_first (setNode (build_class stX cn [] none).1
        (build_class stX cn [] none).2
        (fun d => { d with parent := some bib })) bib name
      = module_getattr_first stX bib name := by
  unfold module_getattr_first
  rw [nodeAt_setNode_ne _ _ _
      (show bib ≠ (build_class stX cn [] none).2 from Nat.ne_of_lt hbib),
    (build_class_spec stX cn [] none).2.2.1 bib hbib]

/-- Claim C8: during bootstrap, the proxies for `NoneType` and
`NotImplementedType` are freshly synthesized standalone ClassDefs
parented under the built-in module node, while every other recognized
type's proxy is fetched from the built-in module's local-name table by
the type's name; the proxies for list, tuple, dict and set are wired
directly onto the corresponding node variant, every other proxy lands in
the constant-proxy table, each type exactly once; the rest of the heap is
untouched; and a Const node's class is resolved lazily by looking the
runtime type of its wrapped value up in that table. -/
theorem claim_C8 (st : BState) (bib : Nat) (hbib : bib < st.heap.length)
    (p1 p2 p3 p4 p7 p8 p9 p10 p11 p12 : Nat)
    (h1 : module_getattr_first st bib "list" = some p1)
    (h2 : module_getattr_first st bib "tuple" = some p2)
    (h3 : module_getattr_first st bib "dict" = some p3)
    (h4 : module_getattr_first st bib "set" = some p4)
    (h7 : module_getattr_first st bib "bool" = some p7)
    (h8 : module_getattr_first st bib "int" = some p8)
    (h9 : module_getattr_first st bib "float" = some p9)
    (h10 : module_getattr_first st bib "complex" = some p10)
    (h11 : module_getattr_first st bib "str" = some p11)
    (h12 : module_getattr_first st bib "bytes" = some p12) :
    ∃ st' cp, astroid_bootstrapping st bib = some (st', cp) ∧
      cp = ConstProxies.mk
        [(.noneType, st.heap.length), (.notImplType, st.heap.length + 1),
         (.boolType, p7), (.intType, p8), (.floatType, p9), (.complexType, p10),
         (.strType, p11), (.bytesType, p12)]
        (some p1) (some p2) (some p3) (some p4) ∧
      nodeAt st' st.heap.length
        = { kind := .classdef, nname := some "NoneType", parent := some bib } ∧
      nodeAt st' (st.heap.length + 1)
        = { kind := .classdef, nname := some "NotImplementedType",
            parent := some bib } ∧
      st'.heap.length = st.heap.length + 2 ∧
      (∀ j, j < st.heap.length → nodeAt st' j = nodeAt st j) ∧
      (∀ v, set_proxied cp v = alookup v.ctype cp.table) := by
  set P5 := build_class st "NoneType" [] none with hP5
  set S5 := setNode P5.1 P5.2 (fun d => { d with parent := some bib }) with hS5
  set P6 := build_class S5 "NotImplementedType" [] none with hP6
  set S6 := setNode P6.1 P6.2 (fun d => { d with parent := some bib }) with hS6
  have hP52 : P5.2 = st.heap.length := by
    rw [hP5]
    rfl
  have hP51len : P5.1.heap.length = st.heap.length + 1 := by
    rw [hP5]
    have h := (build_class_spec st "NoneType" [] none).2.1
    simpa using h
  have hS5len : S5.heap.length = st.heap.length + 1 := by
    rw [hS5, length_setNode, hP51len]
  have hP62 : P6.2 = st.heap.length + 1 := by
    rw [hP6]
    show S5.heap.length = _
    exact hS5len
  have hP61len : P6.1.heap.length = st.heap.length + 2 := by
    rw [hP6]
    have h := (build_class_spec S5 "NotImplementedType" [] none).2.1
    simp only [List.length_nil, Nat.add_zero] at h
    rw [h, hS5len]
  have hS6len : S6.heap.length = st.heap.length + 2 := by
    rw [hS6, length_setNode, hP61len]
  have hm : ∀ nm, module_getattr_first S6 bib nm = module_getattr_first st bib nm := by
    intro nm
    rw [hS6, hP6, mgf_fresh S5 "NotImplementedType" bib nm (by rw [hS5len]; omega),
      hS5, hP5, mgf_fresh st "NoneType" bib nm hbib]
  have haux5 : nodeAt P5.1 P5.2
      = { kind := .classdef, nname := some "NoneType" } := by
    rw [hP5]
    exact nodeAt_addNode_fst_len st _
  have haux6 : nodeAt P6.1 P6.2
      = { kind := .classdef, nname := some "NotImplementedType" } := by
    rw [hP6]
    exact nodeAt_addNode_fst_len S5 _
  have hn5 : nodeAt S6 st.heap.length
      = { kind := .classdef, nname := some "NoneType", parent := some bib } := by
    rw [hS6, nodeAt_setNode_ne _ _ _ (by rw [hP62]; omega), hP6,
      (build_class_spec S5 "NotImplementedType" [] none).2.2.1 st.heap.length
        (by rw [hS5len]; omega),
      show st.heap.length = P5.2 from hP52.symm, hS5,
      nodeAt_setNode_self _ _ _ (by rw [hP52, hP51len]; omega), haux5]
  have hn6 : nodeAt S6 (st.heap.length + 1)
      = { kind := .classdef, nname := some "NotImplementedType",
          parent := some bib } := by
    rw [show st.heap.length + 1 = P6.2 from hP62.symm, hS6,
      nodeAt_setNode_self _ _ _ (by rw [hP62, hP61len]; omega), haux6]
  have hpres : ∀ j, j < st.heap.length → nodeAt S6 j = nodeAt st j := by
    intro j hj
    rw [hS6, nodeAt_setNode_ne _ _ _ (by rw [hP62]; omega), hP6,
      (build_class_spec S5 "NotImplementedType" [] none).2.2.1 j
        (by rw [hS5len]; omega),
      hS5, nodeAt_setNode_ne _ _ _ (by rw [hP52]; omega), hP5,
      (build_class_spec st "NoneType" [] none).2.2.1 j hj]
  have hrun : astroid_bootstrapping st bib = some (S6, ConstProxies.mk
      [(.noneType, st.heap.length), (.notImplType, st.heap.length + 1),
       (.boolType, p7), (.intType, p8), (.floatType, p9), (.complexType, p10),
       (.strType, p11), (.bytesType, p12)]
      (some p1) (some p2) (some p3) (some p4)) := by
    calc astroid_bootstrapping st bib
        = bootstrap_loop bib [.tupleType, .dictType, .setType, .noneType,
            .notImplType, .boolType, .intType, .floatType, .complexType,
            .strType, .bytesType] st
            (ConstProxies.mk [] (some p1) none none none) :=
          bootstrap_step_getattr _ _ _ _ _ _ (by decide) (by decide) h1
      _ = bootstrap_loop bib [.dictType, .setType, .noneType, .notImplType,
            .boolType, .intType, .floatType, .complexType, .strType,
            .bytesType] st
            (ConstProxies.mk [] (some p1) (some p2) none none) :=
          bootstrap_step_getattr _ _ _ _ _ _ (by decide) (by decide) h2
      _ = bootstrap_loop bib [.setType, .noneType, .notImplType, .boolType,
            .intType, .floatType, .complexType, .strType, .bytesType] st
            (ConstProxies.mk [] (some p1) (some p2) (some p3) none) :=
          bootstrap_step_getattr _ _ _ _ _ _ (by decide) (by decide) h3
      _ = bootstrap_loop bib [.noneType, .notImplType, .boolType, .intType,
            .floatType, .complexType, .strType, .bytesType] st
            (ConstProxies.mk [] (some p1) (some p2) (some p3) (some p4)) :=
          bootstrap_step_getattr _ _ _ _ _ _ (by decide) (by decide) h4
      _ = bootstrap_loop bib [.notImplType, .boolType, .intType, .floatType,
            .complexType, .strType, .bytesType] S5
            (ConstProxies.mk [(.noneType, st.heap.length)]
              (some p1) (some p2) (some p3) (some p4)) :=
          bootstrap_step_none bib _ st _
      _ = bootstrap_loop bib [.boolType, .intType, .floatType, .complexType,
            .strType, .bytesType] S6
            (ConstProxies.mk [(.noneType, st.heap.length), (.notImplType, P6.2)]
              (some p1) (some p2) (some p3) (some p4)) :=
          bootstrap_step_notimpl bib _ S5 _
      _ = some (S6, ConstProxies.mk
            [(.noneType, st.heap.length), (.notImplType, P6.2),
             (.boolType, p7), (.intType, p8), (.floatType, p9),
             (.complexType, p10), (.strType, p11), (.bytesType, p12)]
            (some p1) (some p2) (some p3) (some p4)) :=
          bootstrap_scalars _ _ _ _ _ _ _ _ _ ((hm "bool").trans h7)
            ((hm "int").trans h8) ((hm "float").trans h9)
            ((hm "complex").trans h10) ((hm "str").trans h11)
            ((hm "bytes").trans h12)
      _ = some (S6, ConstProxies.mk
            [(.noneType, st.heap.length), (.notImplType, st.heap.length + 1),
             (.boolType, p7), (.intType, p8), (.floatType, p9),
             (.complexType, p10), (.strType, p11), (.bytesType, p12)]
            (some p1) (some p2) (some p3) (some p4)) := by
          rw [hP62]
  exact ⟨S6, _, hrun, rfl, hn5, hn6, hS6len, hpres, fun v => rfl⟩

/-- The bootstrap on a concrete built-in module: the two singleton types
get the fresh nodes 1 and 2, the scalar types get the nodes bound to
their names, and the containers are wired onto the variants. -/
theorem claim_C8_witness :
    ∃ st' cp, astroid_bootstrapping stC8 0 = some (st', cp) ∧
      cp = ConstProxies.mk
        [(.noneType, 1), (.notImplType, 2), (.boolType, 14), (.intType, 15),
         (.floatType, 16), (.complexType, 17), (.strType, 18), (.bytesType, 19)]
        (some 10) (some 11) (some 12) (some 13) ∧
      (nodeAt st' 1).nname = some "NoneType" ∧
      (nodeAt st' 2).nname = some "NotImplementedType" ∧
      (nodeAt st' 1).parent = some 0 ∧ (nodeAt st' 2).parent = some 0 ∧
      set_proxied cp { ctype := .intType, payload := 0 } = some 15 := by
  obtain ⟨st', cp, hrun, hcp, hn5, hn6, hlen, hpres, hsp⟩ :=
    claim_C8 stC8 0 (by decide) 10 11 12 13 14 15 16 17 18 19 (by decide)
      (by decide) (by decide) (by decide) (by decide) (by decide) (by decide)
      (by decide) (by decide) (by decide)
  rw [show stC8.heap.length = 1 from rfl] at hn5 hn6
  refine ⟨st', cp, hrun, hcp, ?_, ?_, ?_, ?_, ?_⟩
  · rw [hn5]
  · rw [hn6]
  · rw [hn5]
  · rw [hn6]
  · rw [hcp]
    rfl

/-! ## C1: termination and node uniqueness on cyclic object graphs -/

/-- The walk of `envA` builds the very same live function object, met
again under a second name, a second distinct FunctionDef node: the names
`f` and `g` fetch the identical live object, yet end up bound to the
distinct nodes 1 and 3, both FunctionDef.  Function members never pass
through the memo table, so "at most one symbolic node is constructed for
any live object reachable from the root" fails. -/
theorem claim_C1_counterexample :
    getattr_live envA 0 "f" = getattr_live envA 0 "g" ∧
    (inspect_build envA 9 ({ } : BState) none none).map
        (fun r => (localsGet (nodeAt r.1 0).locals "f",
          localsGet (nodeAt r.1 0).locals "g",
          (nodeAt r.1 1).kind, (nodeAt r.1 3).kind))
      = .ok ([1], [3], .functiondef, .functiondef) := by
  decide

/-- Claim C1 (amended): on a well-formed live object graph — even one
whose attribute graph contains a cycle — a top-level build with the
graph's fuel budget never runs out of fuel; on success, at most one node
was constructed per live object entered by the recursive walk (the ghost
log is duplicate-free and every logged object is memoized); and a further
encounter of a memoized object returns the existing node at once,
building nothing. -/
theorem claim_C1 (env : Env) (hwf : wf_env env = true) (fuel : Nat)
    (hfuel : suff_fuel env ≤ fuel) (st : BState) (modname path : Option String) :
    inspect_build env fuel st modname path ≠ .error .fuelOut ∧
    (∀ st' nid, inspect_build env fuel st modname path = .ok (st', nid) →
      (bKeys st').Nodup ∧ ∀ k ∈ bKeys st', (alookup k st'.done).isSome) ∧
    (∀ (f2 : Nat) (s2 : BState) (node obj : Nat),
      (alookup obj s2.done).isSome →
      object_build env (f2 + 1) s2 node obj = .ok s2) := by
  have hwf1 : (alookup env.selfModuleId env.objs).isSome := by
    have h := hwf
    rw [wf_env, Bool.and_eq_true] at h
    exact h.1
  have hfuel1 : potentialD env [] + 1 ≤ fuel := by
    rw [suff_fuel] at hfuel
    exact hfuel
  have htask : taskHyp env fuel
      (.tObj (inspect_build_pre env st modname path).1
        (inspect_build_pre env st modname path).2 env.selfModuleId) := by
    refine ⟨by omega, ?_, Or.inr (mem_univ_finset.mpr hwf1)⟩
    show potentialD env [] ≤ fuel + 2
    omega
  have hpre : bPre (.tObj (inspect_build_pre env st modname path).1
      (inspect_build_pre env st modname path).2 env.selfModuleId) := by
    refine ⟨?_, ?_⟩
    · show List.Nodup [env.selfModuleId]
      exact List.nodup_singleton _
    · intro k hk
      exact Or.inr (List.mem_singleton.mp hk)
  refine ⟨?_, ?_, ?_⟩
  · intro hbad
    simp only [inspect_build] at hbad
    cases hob : object_build env fuel (inspect_build_pre env st modname path).1
        (inspect_build_pre env st modname path).2 env.selfModuleId with
    | ok s6 => simp [hob] at hbad
    | error e =>
      simp only [hob] at hbad
      injection hbad with he
      subst he
      exact build_step_no_fuelOut env hwf fuel _ htask hob
  · intro st' nid h
    simp only [inspect_build] at h
    cases hob : object_build env fuel (inspect_build_pre env st modname path).1
        (inspect_build_pre env st modname path).2 env.selfModuleId with
    | error e => simp [hob] at h
    | ok s6 =>
      simp only [hob, Except.ok.injEq, Prod.mk.injEq] at h
      obtain ⟨hs, hn⟩ := h
      subst hs
      exact build_step_builtFor env fuel _ s6 hob hpre
  · intro f2 s2 node obj hdone
    rcases ho : alookup obj s2.done with _ | cn
    · rw [ho] at hdone
      exact absurd hdone (by simp)
    · show build_step env (f2 + 1) (.tObj s2 node obj) = .ok s2
      simp only [build_step, ho]

/-- The amended C1 on the concrete cyclic graph `envCyc` (the class `A`
with `A.b is A`): the build terminates within the budget, and at most one
node was constructed per walked live object. -/
theorem claim_C1_witness :
    suff_fuel envCyc ≤ 12 ∧
    inspect_build envCyc 12 ({ } : BState) none none ≠ .error .fuelOut ∧
    ∃ r, inspect_build envCyc 12 ({ } : BState) none none = .ok r ∧
      (bKeys r.1).Nodup := by
  obtain ⟨hterm, huniq, hmemo⟩ :=
    claim_C1 envCyc (by decide) 12 (by decide) ({ } : BState) none none
  refine ⟨by decide, hterm, ?_⟩
  cases hres : inspect_build envCyc 12 ({ } : BState) none none with
  | error e =>
    have hok : (inspect_build envCyc 12 ({ } : BState) none none).isOk = true := by
      decide
    rw [hres] at hok
    simp [Except.isOk, Except.toBool] at hok
  | ok r => exact ⟨r, rfl, (huniq r.1 r.2 (by rw [hres])).1⟩

end RawBuilding
